import Mathlib

/-!
# Verification of the grafanarama dashboard library

A shallow embedding of the grafanarama repository's core logic, with
theorems settling the frozen claims about it.

Embedded source files:
* `src/grafanarama/__init__.py` — `DashboardObject.gather_fields_into_spec`
  (the envelope reconciler) and `DashboardObject.serialize_model`.
* `src/grafanarama/schema_utils.py` — `is_array_type`, `is_object_type`,
  `get_array_fields`, `get_nested_array_fields`, `apply_schema_defaults`.
* `src/grafanarama/apiclient.py` — `GrafanaClient.__init__`, the `auth`
  property, the request primitives' argument assembly, and
  `send_datasource`.

The classes `Spec`, `Metadata` and `Status` live in
`grafanarama/core/dashboard.py`, which is not part of the sources; where a
definition depends on them it is modelled from the specification and the
repository tests, and says so in its doc comment.

Python dictionaries are mutable heap objects, and `apply_schema_defaults`
mutates nested dictionaries in place through a shallow copy; the embedding
of `schema_utils.py` therefore uses an explicit store (heap) of
association-list dictionaries, with `Value.vref` as the dictionary
reference type.  The envelope reconciler allocates only fresh
dictionaries and never mutates, so it is embedded as a pure function over
inline values (`PVal`).
-/

namespace Grafanarama

/-! ## Pure values for the envelope reconciler

`PVal` models the Python values flowing through
`DashboardObject.gather_fields_into_spec`: JSON-like data plus already
built `Spec` / `Metadata` / `Status` objects (each carrying the mapping of
explicitly set fields it was built from). -/

inductive PVal : Type where
  | pnull : PVal
  | pbool : Bool → PVal
  | pint : Int → PVal
  | pstr : String → PVal
  | plist : List PVal → PVal
  | pdict : List (String × PVal) → PVal
  | pspec : List (String × PVal) → PVal
  | pmeta : List (String × PVal) → PVal
  | pstatus : List (String × PVal) → PVal

/-- Association-list lookup: the value stored at `key`, if any.  Models
Python `d[key]` / `d.get(key)` on a dictionary with unique keys. -/
def alookup {α : Type} : List (String × α) → String → Option α
  | [], _ => none
  | (k, v) :: rest, key => if k = key then some v else alookup rest key

/-- Association-list store: models Python `d[key] = v` (replace in place
if the key is present, append otherwise; insertion order is kept). -/
def ainsert {α : Type} : List (String × α) → String → α → List (String × α)
  | [], key, val => [(key, val)]
  | (k, v) :: rest, key, val =>
      if k = key then (key, val) :: rest else (k, v) :: ainsert rest key val

/-- Association-list removal: models Python `d.pop(key)`'s effect on a
dictionary (unique keys, so dropping every binding of `key` coincides
with dropping the one binding). -/
def aremove {α : Type} (l : List (String × α)) (key : String) : List (String × α) :=
  l.filter fun kv => ¬ kv.1 = key

/-! ## Envelope reconciler: `DashboardObject.gather_fields_into_spec` -/

/-- The reserved envelope keys excluded from the provisional spec-content
mapping (`__init__.py` line 23). -/
def reservedKeys : List String := ["spec", "metadata", "status"]

/-- `{k: v for k, v in values.items() if k not in ["spec", "metadata", "status"]}` -/
def specContentOf : List (String × PVal) → List (String × PVal)
  | [] => []
  | (k, v) :: rest =>
      if k = "spec" ∨ k = "metadata" ∨ k = "status" then specContentOf rest
      else (k, v) :: specContentOf rest

/-- Python `{**a, **b}`: entries of `b` written over `a` in order. -/
def pymerge (a b : List (String × PVal)) : List (String × PVal) :=
  b.foldl (fun acc kv => ainsert acc kv.1 kv.2) a

/-- `gather_fields_into_spec` (`__init__.py` lines 16–70).

`metaCtor` stands for `Metadata(**m)`: the constructor of the external
`Metadata` class (`core/dashboard.py`, not in the sources); `none` models
the constructor raising, `some md` a successfully built object with
fields `md`.  `Spec(**m)` and `Status(**m)` are modelled from the spec as
recording the supplied field mapping (`PVal.pspec` / `PVal.pstatus`); the
spec's §4.3 needs no more of them here.  A non-dictionary input is passed
through unchanged (lines 18–19). -/
def gather_fields_into_spec
    (metaCtor : List (String × PVal) → Option (List (String × PVal)))
    (values : PVal) : PVal :=
  match values with
  | .pdict kvs =>
      -- provisional spec content, with the schemaVersion default
      let spec_content0 := specContentOf kvs
      let spec_content :=
        match alookup spec_content0 "schemaVersion" with
        | none => ainsert spec_content0 "schemaVersion" (.pint 39)
        | some _ => spec_content0
      -- merge an explicit `spec` underneath (spec_content takes precedence)
      let merged :=
        match alookup kvs "spec" with
        | some (.pspec f) => pymerge f spec_content
        | some (.pdict dd) => pymerge dd spec_content
        | some _ => pymerge [] spec_content
        | none => spec_content
      -- metadata: absent/None → {}; non-empty dict → try Metadata(**d),
      -- falling back to the raw dict; anything else kept as-is
      let metadata_value :=
        match alookup kvs "metadata" with
        | none => .pdict []
        | some .pnull => .pdict []
        | some (.pdict []) => .pdict []
        | some (.pdict (kv :: m)) =>
            match metaCtor (kv :: m) with
            | some md => .pmeta md
            | none => .pdict (kv :: m)
        | some v => v
      -- status: absent/None → Status(); dict → Status(**d); else as-is
      let status_value :=
        match alookup kvs "status" with
        | none => .pstatus []
        | some .pnull => .pstatus []
        | some (.pdict st) => .pstatus st
        | some v => v
      .pdict [("spec", .pspec merged),
              ("metadata", metadata_value),
              ("status", status_value)]
  | v => v

/-- Reads the canonical Spec's field mapping out of a reconciled value. -/
def specFields (v : PVal) : List (String × PVal) :=
  match v with
  | .pdict kvs =>
      match alookup kvs "spec" with
      | some (.pspec f) => f
      | _ => []
  | _ => []

/-- Reads the metadata component of a reconciled value. -/
def metadataField (v : PVal) : PVal :=
  match v with
  | .pdict kvs => (alookup kvs "metadata").getD .pnull
  | _ => .pnull

/-- A `Metadata` constructor that always fails; used to instantiate
theorems at a concrete input. -/
def failingMetaCtor : List (String × PVal) → Option (List (String × PVal)) :=
  fun _ => none

/-! ## Transport client: `GrafanaClient` (`apiclient.py`) -/

/-- Python truthiness of an optional string (`if self._apiKey:` is false
for both `None` and the empty string). -/
def pyTruthy : Option String → Bool
  | none => false
  | some s => !(s == "")

/-- Python `str.strip()`: drop leading and trailing whitespace. -/
def pystrip (s : String) : String :=
  String.mk (((s.data.dropWhile Char.isWhitespace).reverse.dropWhile
    Char.isWhitespace).reverse)

/-- The client state established by `GrafanaClient.__init__`
(`apiclient.py` lines 15–42).  `warned` records whether the
both-auth-methods warning was emitted (`warnings.warn`, line 42). -/
structure GrafanaClient where
  host : String
  port : Nat
  apiKey : Option String
  auth_user : Option String
  auth_pass : Option String
  use_https : Bool
  headers : List (String × String)
  warned : Bool

/-- `GrafanaClient.__init__`: base headers, then — if an API key is given
(truthy) — strip it, add the `X-Grafana-API-Key` header, and warn when
basic-auth credentials were also supplied.  The credentials themselves
are stored unconditionally. -/
def GrafanaClient.create (host : String) (port : Nat)
    (apiKey auth_user auth_pass : Option String) (use_https : Bool) : GrafanaClient :=
  let baseHeaders : List (String × String) :=
    [("Content-Type", "application/json"), ("Accept", "application/json")]
  if pyTruthy apiKey then
    let k := pystrip (apiKey.getD "")
    { host := host, port := port, apiKey := some k,
      auth_user := auth_user, auth_pass := auth_pass, use_https := use_https,
      headers := ainsert baseHeaders "X-Grafana-API-Key" k,
      warned := pyTruthy auth_user || pyTruthy auth_pass }
  else
    { host := host, port := port, apiKey := apiKey,
      auth_user := auth_user, auth_pass := auth_pass, use_https := use_https,
      headers := baseHeaders, warned := false }

/-- The `auth` property (`apiclient.py` lines 48–53): the basic-auth pair
when both user and password are truthy, else `None`. -/
def GrafanaClient.auth (c : GrafanaClient) : Option (String × String) :=
  if pyTruthy c.auth_user && pyTruthy c.auth_pass then
    some (c.auth_user.getD "", c.auth_pass.getD "")
  else none

/-- The arguments every request primitive passes to the HTTP library:
`requests.get/post/put/delete(url, headers=self.headers, auth=self.auth)`. -/
structure HttpRequest where
  url : String
  headers : List (String × String)
  auth : Option (String × String)

/-- Argument assembly shared by `get`, `post`, `put` and `delete`
(`apiclient.py` lines 112–173). -/
def GrafanaClient.request (c : GrafanaClient) (url : String) : HttpRequest :=
  ⟨url, c.headers, c.auth⟩

/-! ## `GrafanaClient.send_datasource` (`apiclient.py` lines 74–96) -/

/-- The shapes `send_datasource` distinguishes: a Pydantic model (whose
`name` attribute may be missing), a dict (whose `name` key may be
missing), or anything else.  Names are modelled as strings, the type
datasource names have. -/
inductive Datasource where
  | model (name : Option String)
  | dict (name : Option String)
  | other

/-- The HTTP write `send_datasource` ends with. -/
inductive DsAction where
  | put (id : Int)
  | post

/-- The shared tail of `send_datasource` after the name was extracted:
`if not name: raise`, then look up the id by name
(`get_datasource_id_byname`, whose `if id:` treats both `None` and `0`
as not found) and PUT on a truthy id, POST otherwise. -/
def sendNamed (lookupByName : String → Option Int) (name : Option String) :
    Except String DsAction :=
  match name with
  | none => .error "datasource must have a 'name' field"
  | some s =>
      if s = "" then .error "datasource must have a 'name' field"
      else
        match lookupByName s with
        | some i => if i = 0 then .ok .post else .ok (.put i)
        | none => .ok .post

/-- `send_datasource`: extract the name according to the argument's
shape (raising for non-model, non-dict arguments), then dispatch. -/
def send_datasource (lookupByName : String → Option Int) :
    Datasource → Except String DsAction
  | .other => .error "datasource must be a Pydantic model or dict with a 'name' field"
  | .model name => sendNamed lookupByName name
  | .dict name => sendNamed lookupByName name

/-- A datasource-id lookup that finds id 0 for every name; instantiates
the `if id:` edge case. -/
def zeroIdLookup : String → Option Int := fun _ => some 0

/-- A datasource-id lookup that finds id 5 for every name. -/
def fiveIdLookup : String → Option Int := fun _ => some 5

/-! ## Heap model for `schema_utils.py`

Python dictionaries are mutable heap objects, and `apply_schema_defaults`
starts from a *shallow* copy of its input, so writes into nested
dictionaries are visible through every alias.  `Value` is the type of the
JSON-like values in a dump; dictionaries are represented by references
(`vref`) into a `Store`, a heap of association-list dictionaries.  Lists
are kept inline because this code never mutates a list it shares. -/

inductive Value : Type where
  | vnull : Value
  | vbool : Bool → Value
  | vint : Int → Value
  | vstr : String → Value
  | varr : List Value → Value
  | vref : Nat → Value

/-- A dictionary object: an insertion-ordered association list. -/
abbrev Dict := List (String × Value)

/-- The heap of dictionary objects. -/
abbrev Store := List Dict

/-- Dereference a dictionary (out-of-range references, which cannot
arise in Python, dereference to the empty dictionary). -/
def sget (s : Store) (r : Nat) : Dict := s.getD r []

/-- Overwrite the dictionary object at `r`. -/
def sset (s : Store) (r : Nat) (d : Dict) : Store := s.set r d

/-- `true` when the value holds no reference at or beyond `n`. -/
def refLt (v : Value) (n : Nat) : Bool :=
  match v with
  | .vref r => decide (r < n)
  | _ => true

/-- All references stored in the dictionary point below `n` (every
Python dictionary satisfies this with `n` the heap size). -/
def closedDictB (d : Dict) (n : Nat) : Bool :=
  d.all fun kv => refLt kv.2 n

/-- `true` when the value is not a reference to object `r`. -/
def notRefTo (v : Value) (r : Nat) : Bool :=
  match v with
  | .vref r2 => !(r2 == r)
  | _ => true

/-- No value of the dictionary references object `r` (no cycle through
the top-level dictionary). -/
def noRefToB (d : Dict) (r : Nat) : Bool :=
  d.all fun kv => notRefTo kv.2 r

/-! ## JSON schemas and the schema introspector (`schema_utils.py`) -/

/-- The slice of a Pydantic `model_json_schema()` dictionary that
`schema_utils.py` reads: the `type` tag, the `$ref` string, the `anyOf`
and `oneOf` branch lists (with `none` for an absent key), the
`properties` mapping, and the `$defs` table. -/
inductive JSchema : Type where
  | mk : Option String → Option String → Option (List JSchema) →
      Option (List JSchema) → List (String × JSchema) →
      List (String × JSchema) → JSchema

def JSchema.typeKey : JSchema → Option String
  | .mk t _ _ _ _ _ => t

def JSchema.refKey : JSchema → Option String
  | .mk _ r _ _ _ _ => r

def JSchema.anyOfKey : JSchema → Option (List JSchema)
  | .mk _ _ a _ _ _ => a

def JSchema.oneOfKey : JSchema → Option (List JSchema)
  | .mk _ _ _ o _ _ => o

def JSchema.properties : JSchema → List (String × JSchema)
  | .mk _ _ _ _ p _ => p

def JSchema.defs : JSchema → List (String × JSchema)
  | .mk _ _ _ _ _ d => d

/-- `is_array_type` (`schema_utils.py` lines 5–12). -/
def is_array_type (schema : JSchema) : Bool :=
  match schema.anyOfKey with
  | some items => items.any fun item => item.typeKey == some "array"
  | none =>
      match schema.oneOfKey with
      | some items => items.any fun item => item.typeKey == some "array"
      | none => schema.typeKey == some "array"

/-- `is_object_type` (`schema_utils.py` lines 15–21). -/
def is_object_type (schema : JSchema) : Bool :=
  match schema.anyOfKey with
  | some items =>
      items.any fun item => item.typeKey == some "object" || item.refKey.isSome
  | none =>
      match schema.oneOfKey with
      | some items =>
          items.any fun item => item.typeKey == some "object" || item.refKey.isSome
      | none => schema.typeKey == some "object" || schema.refKey.isSome

/-- `get_array_fields` (`schema_utils.py` lines 24–33): the property
names whose schema is array-typed, in declaration order. -/
def get_array_fields (schema : JSchema) : List String :=
  (schema.properties.filter fun fs => is_array_type fs.2).map Prod.fst

/-- Python `ref.split('/')[-1]`: the suffix after the last `/` (the
whole string when there is none). -/
def splitLast (r : String) : String :=
  String.mk ((r.data.reverse.takeWhile fun c => !(c == '/')).reverse)

/-- The `$ref` name extraction of `get_nested_array_fields` (lines
47–54): a direct `$ref`, else the first `anyOf` branch carrying one. -/
def nestedRefOf (fs : JSchema) : Option String :=
  match fs.refKey with
  | some r => some (splitLast r)
  | none =>
      match fs.anyOfKey with
      | some items =>
          match items.find? fun it => it.refKey.isSome with
          | some it => some (splitLast (it.refKey.getD ""))
          | none => none
      | none => none

/-- The body of `get_nested_array_fields`'s loop (lines 44–64) for one
property: resolve the reference (skipping a falsy or unresolvable one),
collect the referenced schema's array-typed property names, and — when
there are any — store them under the property's name by dictionary
assignment (`nested[field_name] = nested_fields`). -/
def nestedAccStep (defs : List (String × JSchema))
    (acc : List (String × List String)) (fs : String × JSchema) :
    List (String × List String) :=
  if is_object_type fs.2 then
    match nestedRefOf fs.2 with
    | some ref =>
        if ref = "" then acc
        else
          match alookup defs ref with
          | some nestedSchema =>
              let nested_fields :=
                ((nestedSchema.properties.filter fun nf =>
                  is_array_type nf.2).map Prod.fst)
              if nested_fields.isEmpty then acc
              else ainsert acc fs.1 nested_fields
          | none => acc
    | none => acc
  else acc

/-- `get_nested_array_fields` (`schema_utils.py` lines 36–66): maps each
object-typed property whose resolvable sub-schema declares array-typed
sub-fields to the list of those sub-field names. -/
def get_nested_array_fields (schema : JSchema) : List (String × List String) :=
  schema.properties.foldl (nestedAccStep schema.defs) []

/-! ## `apply_schema_defaults` (`schema_utils.py` lines 69–95) -/

/-- One iteration of the top-level loop (lines 76–78): a present null at
an array-typed field becomes an empty list; `result[field] = []` writes
into the result dictionary `c`. -/
def arrStep (c : Nat) (s : Store) (f : String) : Store :=
  match alookup (sget s c) f with
  | some .vnull => sset s c (ainsert (sget s c) f (.varr []))
  | _ => s

/-- `{field: [] for field in nested_array_fields}` (line 86). -/
def emptyArraysDict (nfs : List String) : Dict :=
  nfs.foldl (fun d g => ainsert d g (.varr [])) []

/-- One iteration of the inner loop (lines 89–93): a null or absent
nested array field of the dictionary object `r` becomes an empty list —
written in place into `r`. -/
def nestedFieldStep (r : Nat) (s : Store) (g : String) : Store :=
  match alookup (sget s r) g with
  | some .vnull => sset s r (ainsert (sget s r) g (.varr []))
  | none => sset s r (ainsert (sget s r) g (.varr []))
  | some _ => s

/-- One iteration of the outer nested loop (lines 82–93): skip an absent
parent; replace a null parent by a freshly allocated dictionary of empty
lists; walk into a dictionary-valued parent; skip any other value. -/
def parentStep (c : Nat) (s : Store) (pn : String × List String) : Store :=
  match alookup (sget s c) pn.1 with
  | none => s
  | some .vnull =>
      sset (s ++ [emptyArraysDict pn.2]) c (ainsert (sget s c) pn.1 (.vref s.length))
  | some (.vref r) => pn.2.foldl (nestedFieldStep r) s
  | some _ => s

/-- `apply_schema_defaults(data, model_class)`: shallow-copy the input
dictionary (`result = data.copy()`, allocating the copy as a fresh heap
object), run the top-level array loop, then the nested loop; returns the
final heap and the reference of the result dictionary. -/
def apply_schema_defaults (schema : JSchema) (s : Store) (data : Nat) : Store × Nat :=
  let c := s.length
  let s0 := s ++ [sget s data]
  let s1 := (get_array_fields schema).foldl (arrStep c) s0
  let s2 := (get_nested_array_fields schema).foldl (parentStep c) s1
  (s2, c)

/-! ## The modelled `Spec` schema

`Spec`, with its Pydantic schema, lives in `grafanarama/core/dashboard.py`,
which is not among the sources. -/

/-- A JSON-schema leaf with only a `type` tag. -/
def typeLeaf (t : String) : JSchema := .mk (some t) none none none [] []

/-- An `Optional[T]` scalar field: `anyOf` of the type and `null`. -/
def scalarOrNull (t : String) : JSchema :=
  .mk none none (some [typeLeaf t, typeLeaf "null"]) none [] []

/-- An `Optional[List[T]]` field: `anyOf` of `array` and `null`. -/
def arrayOrNull : JSchema :=
  .mk none none (some [typeLeaf "array", typeLeaf "null"]) none [] []

/-- An `Optional[Model]` field: `anyOf` of a `$ref` and `null`. -/
def refOrNull (name : String) : JSchema :=
  .mk none none
    (some [.mk none (some ("#/$defs/" ++ name)) none none [] [], typeLeaf "null"])
    none [] []

/-- A referenced object schema whose only array-typed property is
`list` (the shape of the templating and annotations containers). -/
def listContainerDef : JSchema :=
  .mk (some "object") none none none [("list", arrayOrNull)] []

/-- Modelled from the spec: the `model_json_schema()` of the `Spec`
class of `grafanarama/core/dashboard.py` (the file is not among the
sources).  Field names and kinds follow spec §3 and the repository test
fixtures: `tags`, `panels` and `links` are sequence-typed;
`templating` and `annotations` are object-typed with a sequence-typed
`list` sub-field; `time`, `timepicker` and `snapshot` are object-typed
without sequence sub-fields; the rest are optional scalars, except the
required integer `schemaVersion`. -/
def specSchema : JSchema := .mk none none none none
  [("id", scalarOrNull "integer"), ("uid", scalarOrNull "string"),
   ("title", scalarOrNull "string"), ("description", scalarOrNull "string"),
   ("revision", scalarOrNull "integer"), ("gnetId", scalarOrNull "string"),
   ("tags", arrayOrNull), ("timezone", scalarOrNull "string"),
   ("editable", scalarOrNull "boolean"), ("graphTooltip", scalarOrNull "integer"),
   ("time", refOrNull "TimeSettingsSpec"), ("timepicker", refOrNull "TimePickerConfig"),
   ("fiscalYearStartMonth", scalarOrNull "integer"), ("liveNow", scalarOrNull "boolean"),
   ("weekStart", scalarOrNull "string"), ("refresh", scalarOrNull "string"),
   ("schemaVersion", typeLeaf "integer"), ("version", scalarOrNull "integer"),
   ("panels", arrayOrNull), ("templating", refOrNull "VariableContainer"),
   ("annotations", refOrNull "AnnotationContainer"), ("links", arrayOrNull),
   ("snapshot", refOrNull "SnapshotMeta")]
  [("TimeSettingsSpec", .mk (some "object") none none none
      [("from", typeLeaf "string"), ("to", typeLeaf "string")] []),
   ("TimePickerConfig", .mk (some "object") none none none [] []),
   ("VariableContainer", listContainerDef),
   ("AnnotationContainer", listContainerDef),
   ("SnapshotMeta", .mk (some "object") none none none [] [])]

/-- Modelled from the spec: `Spec(schemaVersion=39).model_dump(mode='json',
exclude_unset=False)`, as recorded verbatim by the repository test
fixture `dashboard_serialized` in `tests/test_dashboard.py` (the `Spec`
class itself is not among the sources). -/
def specDumpMinimal : Dict :=
  [("id", .vnull), ("uid", .vnull), ("title", .vnull), ("description", .vnull),
   ("revision", .vnull), ("gnetId", .vnull), ("tags", .vnull),
   ("timezone", .vstr "browser"), ("editable", .vbool true),
   ("graphTooltip", .vint 0), ("time", .vnull), ("timepicker", .vnull),
   ("fiscalYearStartMonth", .vint 0), ("liveNow", .vnull), ("weekStart", .vnull),
   ("refresh", .vnull), ("schemaVersion", .vint 39), ("version", .vnull),
   ("panels", .vnull), ("templating", .vnull), ("annotations", .vnull),
   ("links", .vnull), ("snapshot", .vnull)]

/-! ## `DashboardObject.serialize_model` (`__init__.py` lines 72–101) -/

/-- `{'from': 'now-6h', 'to': 'now'}` (line 83). -/
def timeDefaultDict : Dict := [("from", .vstr "now-6h"), ("to", .vstr "now")]

/-- Lines 82–87: an absent or null `time` becomes a freshly allocated
`{'from': 'now-6h', 'to': 'now'}`; inside a dictionary-valued `time`, a
`from_` key is popped and re-added as `from` when `from` is absent. -/
def timeStep (c : Nat) (s : Store) : Store :=
  match alookup (sget s c) "time" with
  | none =>
      sset (s ++ [timeDefaultDict]) c (ainsert (sget s c) "time" (.vref s.length))
  | some .vnull =>
      sset (s ++ [timeDefaultDict]) c (ainsert (sget s c) "time" (.vref s.length))
  | some (.vref r) =>
      match alookup (sget s r) "from_", alookup (sget s r) "from" with
      | some v, none => sset s r (ainsert (aremove (sget s r) "from_") "from" v)
      | _, _ => s
  | some _ => s

/-- Lines 90–91: an absent or null `timepicker` becomes a freshly
allocated empty dictionary. -/
def timepickerStep (c : Nat) (s : Store) : Store :=
  match alookup (sget s c) "timepicker" with
  | none => sset (s ++ [[]]) c (ainsert (sget s c) "timepicker" (.vref s.length))
  | some .vnull => sset (s ++ [[]]) c (ainsert (sget s c) "timepicker" (.vref s.length))
  | some _ => s

/-- Lines 94–99 for `version` and `weekStart`: an absent or null value
becomes the given default. -/
def scalarDefaultStep (key : String) (dv : Value) (c : Nat) (s : Store) : Store :=
  match alookup (sget s c) key with
  | none => sset s c (ainsert (sget s c) key dv)
  | some .vnull => sset s c (ainsert (sget s c) key dv)
  | some _ => s

/-- `serialize_model`: normalize the Spec dump through
`apply_schema_defaults(spec_dict, Spec)`, then apply the five hardcoded
corrections in source order. -/
def serialize_model (s : Store) (specDump : Nat) : Store × Nat :=
  let r1 := apply_schema_defaults specSchema s specDump
  let s2 := timeStep r1.2 r1.1
  let s3 := timepickerStep r1.2 s2
  let s4 := scalarDefaultStep "version" (.vint 1) r1.2 s3
  let s5 := scalarDefaultStep "weekStart" (.vstr "") r1.2 s4
  (s5, r1.2)

/-- A `DashboardObject`: metadata, the heap representation of its
Spec's `model_dump`, and status. -/
structure DashboardObject where
  metadata : Dict
  spec : Store × Nat
  status : Dict

/-- `DashboardObject.serialize_model` reads only `self.spec`. -/
def DashboardObject.serialize (o : DashboardObject) : Store × Nat :=
  serialize_model o.spec.1 o.spec.2

/-! ## Predicates and fixtures for the heap reasoning -/

/-- Non-null preservation: every dictionary slot holding a non-null
value in `s` still holds that value in `s2`.  All writes of
`apply_schema_defaults` are guarded by a null-or-absent check, so the
whole normalizer preserves non-null slots — this is what "never mutates
a value not needing correction" amounts to on a heap with aliasing. -/
def Pres (s s2 : Store) : Prop :=
  ∀ r g v, v ≠ Value.vnull → alookup (sget s r) g = some v →
    alookup (sget s2 r) g = some v

/-- No new nulls: a slot that is null in `s2` was already null in `s`
(the normalizer only ever writes empty lists and fresh dictionaries). -/
def NoNew (s s2 : Store) : Prop :=
  ∀ r g, alookup (sget s2 r) g = some Value.vnull →
    alookup (sget s r) g = some Value.vnull

/-- Away from the result dictionary `c`, slots either keep their value
or hold a freshly written empty list. -/
def OnlyEmpty (c : Nat) (s s2 : Store) : Prop :=
  ∀ r, r ≠ c → ∀ g, alookup (sget s2 r) g = alookup (sget s r) g ∨
    alookup (sget s2 r) g = some (.varr [])

/-- The result dictionary `c` exists, and every reference it stores is
valid and distinct from `c` itself. -/
def StoreInv (c : Nat) (s : Store) : Prop :=
  c < s.length ∧
    ∀ q r, alookup (sget s c) q = some (.vref r) → r ≠ c ∧ r < s.length

/-- No value of dictionary `c` references dictionary `d`. -/
def AvoidsRef (c d : Nat) (s : Store) : Prop :=
  ∀ q r, alookup (sget s c) q = some (.vref r) → r ≠ d

/-- A two-object heap: a top-level dictionary whose `annotations` field
references a nested dictionary holding a null `list`; the shape of the
spec's `{"annotations": null-list}` scenario. -/
def exStore : Store := [[("annotations", .vref 1)], [("list", .vnull)]]

/-! # Theorems

The lemma library, and one theorem (with witness or counterexample as
needed) per claim. -/

/-! ## Association-list lemmas -/

theorem alookup_ainsert_self {α : Type} (l : List (String × α)) (k : String) (v : α) :
    alookup (ainsert l k v) k = some v := by
  induction l with
  | nil => simp [alookup, ainsert]
  | cons kv t ih =>
      by_cases h : kv.1 = k
      · obtain ⟨k0, v0⟩ := kv
        simp only at h
        simp [alookup, ainsert, h]
      · obtain ⟨k0, v0⟩ := kv
        simp only at h
        simp [alookup, ainsert, h, ih]

theorem alookup_ainsert_ne {α : Type} (l : List (String × α)) {k k' : String} (v : α)
    (h : k' ≠ k) : alookup (ainsert l k v) k' = alookup l k' := by
  have hk : ¬ k = k' := fun hh => h hh.symm
  induction l with
  | nil => simp [alookup, ainsert, hk]
  | cons kv t ih =>
      obtain ⟨k0, v0⟩ := kv
      by_cases h0 : k0 = k
      · subst h0
        simp [alookup, ainsert, hk]
      · simp only [ainsert, if_neg h0, alookup]
        by_cases h1 : k0 = k'
        · simp [h1]
        · simp [h1, ih]

theorem alookup_cons_none {α : Type} {k : String} {v : α} {t : List (String × α)}
    {key : String} :
    alookup ((k, v) :: t) key = none ↔ ¬ k = key ∧ alookup t key = none := by
  by_cases h : k = key <;> simp [alookup, h]

theorem ainsert_absent {α : Type} {l : List (String × α)} {k : String}
    (h : alookup l k = none) (v : α) : ainsert l k v = l ++ [(k, v)] := by
  induction l with
  | nil => rfl
  | cons kv t ih =>
      obtain ⟨k0, v0⟩ := kv
      rw [alookup_cons_none] at h
      simp [ainsert, h.1, ih h.2]

/-- If none of the reserved keys occurs in the mapping, the provisional
spec-content comprehension keeps every entry. -/
theorem specContentOf_eq_self (v : List (String × PVal))
    (h2 : alookup v "spec" = none) (h3 : alookup v "metadata" = none)
    (h4 : alookup v "status" = none) : specContentOf v = v := by
  induction v with
  | nil => rfl
  | cons kv t ih =>
      obtain ⟨k0, v0⟩ := kv
      rw [alookup_cons_none] at h2 h3 h4
      have hp : ¬ (k0 = "spec" ∨ k0 = "metadata" ∨ k0 = "status") := by
        push_neg
        exact ⟨h2.1, h3.1, h4.1⟩
      rw [specContentOf, if_neg hp, ih h2.2 h3.2 h4.2]

/-! ## Claim theorems about the envelope reconciler -/

/-- C2 (counterexample): construction is not path-independent for the
`schemaVersion` field.  Supplying `schemaVersion = 40` flat keeps 40, but
supplying the very same mapping nested under `spec` yields 39, because
the default is injected into the provisional spec content before the
merge and the provisional side takes precedence. -/
theorem C2_counterexample :
    specFields (gather_fields_into_spec failingMetaCtor
        (.pdict [("schemaVersion", .pint 40)])) = [("schemaVersion", .pint 40)] ∧
    specFields (gather_fields_into_spec failingMetaCtor
        (.pdict [("spec", .pdict [("schemaVersion", .pint 40)])]))
      = [("schemaVersion", .pint 39)] ∧
    ([("schemaVersion", PVal.pint 40)] : List (String × PVal))
      ≠ [("schemaVersion", PVal.pint 39)] :=
  ⟨rfl, rfl, by simp⟩

/-- C2 (amended): for every field mapping that does not set
`schemaVersion` and contains none of the reserved envelope keys, flat and
nested construction yield the same reconciled document; when
`schemaVersion` is supplied, the flat path preserves it while the nested
path overrides it with the default 39. -/
theorem C2_flat_nested_agreement
    (metaCtor : List (String × PVal) → Option (List (String × PVal)))
    (v : List (String × PVal))
    (h1 : alookup v "schemaVersion" = none) (h2 : alookup v "spec" = none)
    (h3 : alookup v "metadata" = none) (h4 : alookup v "status" = none) :
    gather_fields_into_spec metaCtor (.pdict v) =
      gather_fields_into_spec metaCtor (.pdict [("spec", .pdict v)]) ∧
    (∀ n : Int, alookup (specFields (gather_fields_into_spec metaCtor
        (.pdict [("schemaVersion", .pint n)]))) "schemaVersion" = some (.pint n)) ∧
    (∀ n : Int, alookup (specFields (gather_fields_into_spec metaCtor
        (.pdict [("spec", .pdict [("schemaVersion", .pint n)])]))) "schemaVersion"
        = some (.pint 39)) := by
  have hsc : specContentOf v = v := specContentOf_eq_self v h2 h3 h4
  refine ⟨?_, fun n => rfl, fun n => rfl⟩
  simp only [gather_fields_into_spec, hsc, h1, h2, h3, h4, specContentOf, alookup,
    pymerge, List.foldl]
  simp

/-- C6: merge precedence — a flat field `X = v1` overrides the same-named
field inside an explicit `spec` mapping, for every Spec field name `X`
(the reserved envelope keys `spec`/`metadata`/`status` are not Spec field
names). -/
theorem C6_flat_precedence
    (metaCtor : List (String × PVal) → Option (List (String × PVal)))
    (X : String) (v1 v2 : PVal)
    (h1 : X ≠ "spec") (h2 : X ≠ "metadata") (h3 : X ≠ "status") :
    alookup (specFields (gather_fields_into_spec metaCtor
      (.pdict [(X, v1), ("spec", .pdict [(X, v2)])]))) X = some v1 := by
  by_cases hX : X = "schemaVersion"
  · subst hX
    simp [gather_fields_into_spec, specContentOf, alookup, ainsert, pymerge,
      specFields, h1, h2, h3]
  · simp [gather_fields_into_spec, specContentOf, alookup, ainsert, pymerge,
      specFields, h1, h2, h3, hX]

/-- C8: Metadata-construction failure is deferred.  If the `metadata` key
holds a non-empty mapping on which the `Metadata` constructor fails, the
merge still succeeds and keeps the raw mapping unchanged; an absent or
null `metadata` yields an empty structure; and the reconciler always
returns a well-formed spec/metadata/status envelope. -/
theorem C8_metadata_fallback
    (metaCtor : List (String × PVal) → Option (List (String × PVal)))
    (kvs : List (String × PVal)) :
    (∀ kv0 m, alookup kvs "metadata" = some (.pdict (kv0 :: m)) →
        metaCtor (kv0 :: m) = none →
        metadataField (gather_fields_into_spec metaCtor (.pdict kvs))
          = .pdict (kv0 :: m)) ∧
    (alookup kvs "metadata" = none →
        metadataField (gather_fields_into_spec metaCtor (.pdict kvs)) = .pdict []) ∧
    (alookup kvs "metadata" = some .pnull →
        metadataField (gather_fields_into_spec metaCtor (.pdict kvs)) = .pdict []) ∧
    (∃ sp md st, gather_fields_into_spec metaCtor (.pdict kvs) =
        .pdict [("spec", .pspec sp), ("metadata", md), ("status", st)]) := by
  refine ⟨?_, ?_, ?_, ?_⟩
  · intro kv0 m hm hfail
    simp [gather_fields_into_spec, metadataField, alookup, hm, hfail]
  · intro hm
    simp [gather_fields_into_spec, metadataField, alookup, hm]
  · intro hm
    simp [gather_fields_into_spec, metadataField, alookup, hm]
  · exact ⟨_, _, _, rfl⟩

theorem C2_witness :
    (alookup [("title", PVal.pstr "t")] "schemaVersion" = none) ∧
    gather_fields_into_spec failingMetaCtor (.pdict [("title", .pstr "t")]) =
      gather_fields_into_spec failingMetaCtor
        (.pdict [("spec", .pdict [("title", .pstr "t")])]) :=
  ⟨rfl, (C2_flat_nested_agreement failingMetaCtor [("title", .pstr "t")]
      rfl rfl rfl rfl).1⟩

theorem C6_witness :
    ("title" : String) ≠ "spec" ∧
    alookup (specFields (gather_fields_into_spec failingMetaCtor
      (.pdict [("title", .pint 1), ("spec", .pdict [("title", .pint 2)])]))) "title"
      = some (.pint 1) :=
  ⟨by decide, C6_flat_precedence failingMetaCtor "title" (.pint 1) (.pint 2)
      (by decide) (by decide) (by decide)⟩

theorem C8_witness :
    (alookup [("metadata", PVal.pdict [("x", PVal.pint 1)])] "metadata"
        = some (.pdict [("x", .pint 1)])) ∧
    metadataField (gather_fields_into_spec failingMetaCtor
      (.pdict [("metadata", .pdict [("x", .pint 1)])])) = .pdict [("x", .pint 1)] :=
  ⟨rfl, (C8_metadata_fallback failingMetaCtor
      [("metadata", .pdict [("x", .pint 1)])]).1 ("x", .pint 1) [] rfl rfl⟩

/-- C3: with both an API key and basic-auth credentials supplied, every
request carries the `X-Grafana-API-Key` header and the conflict is
logged as a warning — but, contrary to the claim and to the warning's
own text, the basic-auth credentials ARE still attached to every
request, because `__init__` never clears them and the `auth` property
keeps returning them. -/
theorem C3_both_auth_still_attached :
    alookup ((GrafanaClient.create "localhost" 3000 (some "key123")
        (some "admin") (some "admin") false).request "/api/health").headers
        "X-Grafana-API-Key" = some "key123" ∧
    ((GrafanaClient.create "localhost" 3000 (some "key123")
        (some "admin") (some "admin") false).request "/api/health").auth
        = some ("admin", "admin") ∧
    (GrafanaClient.create "localhost" 3000 (some "key123")
        (some "admin") (some "admin") false).warned = true :=
  ⟨rfl, rfl, rfl⟩

/-- C9 (counterexample): when the by-name lookup finds the id `0`, an id
was found and yet `send_datasource` issues a POST (create), not a PUT,
because `if id:` treats `0` as falsy. -/
theorem C9_counterexample :
    zeroIdLookup "db" = some 0 ∧
    send_datasource zeroIdLookup (.dict (some "db")) = .ok .post :=
  ⟨rfl, rfl⟩

/-- C9 (amended): `send_datasource` raises `ValueError` — independently
of the lookup, hence before any HTTP request — when its argument is
neither a model nor a dict, or when the name is missing or empty; for
every non-empty name it issues a PUT when the lookup finds a truthy
(non-`None`, non-zero) id and a POST otherwise. -/
theorem C9_send_datasource_behaviour (lookupByName : String → Option Int) :
    (∀ l2 : String → Option Int,
        send_datasource l2 .other = send_datasource lookupByName .other ∧
        send_datasource lookupByName .other
          = .error "datasource must be a Pydantic model or dict with a 'name' field") ∧
    (∀ l2 : String → Option Int, ∀ nm, nm = none ∨ nm = some "" →
        send_datasource l2 (.model nm) = .error "datasource must have a 'name' field" ∧
        send_datasource l2 (.dict nm) = .error "datasource must have a 'name' field") ∧
    (∀ s i, s ≠ "" → lookupByName s = some i → i ≠ 0 →
        send_datasource lookupByName (.model (some s)) = .ok (.put i) ∧
        send_datasource lookupByName (.dict (some s)) = .ok (.put i)) ∧
    (∀ s, s ≠ "" → (lookupByName s = none ∨ lookupByName s = some 0) →
        send_datasource lookupByName (.model (some s)) = .ok .post ∧
        send_datasource lookupByName (.dict (some s)) = .ok .post) := by
  refine ⟨fun l2 => ⟨rfl, rfl⟩, ?_, ?_, ?_⟩
  · rintro l2 nm (rfl | rfl) <;> exact ⟨rfl, rfl⟩
  · intro s i hs hl hi
    constructor <;> simp [send_datasource, sendNamed, hs, hl, hi]
  · rintro s hs (hl | hl) <;> constructor <;>
      simp [send_datasource, sendNamed, hs, hl]

theorem C9_witness :
    ("db" : String) ≠ "" ∧ fiveIdLookup "db" = some 5 ∧
    send_datasource fiveIdLookup (.dict (some "db")) = .ok (.put 5) :=
  ⟨by decide, rfl,
    ((C9_send_datasource_behaviour fiveIdLookup).2.2.1 "db" 5
      (by decide) rfl (by decide)).2⟩

/-! ## Store lemmas -/

theorem sget_cons_succ (d : Dict) (t : Store) (r : Nat) :
    sget (d :: t) (r + 1) = sget t r := rfl

theorem sget_ge {s : Store} {r : Nat} (h : s.length ≤ r) : sget s r = [] := by
  induction s generalizing r with
  | nil => cases r <;> rfl
  | cons d t ih =>
      cases r with
      | zero => simp at h
      | succ n => exact ih (Nat.le_of_succ_le_succ h)

theorem sget_append_lt {s : Store} (d : Dict) {r : Nat} (h : r < s.length) :
    sget (s ++ [d]) r = sget s r := by
  induction s generalizing r with
  | nil => simp at h
  | cons d0 t ih =>
      cases r with
      | zero => rfl
      | succ n => exact ih (Nat.lt_of_succ_lt_succ h)

theorem sget_append_self (s : Store) (d : Dict) : sget (s ++ [d]) s.length = d := by
  induction s with
  | nil => rfl
  | cons d0 t ih => exact ih

theorem length_sset (s : Store) (r : Nat) (d : Dict) :
    (sset s r d).length = s.length := List.length_set s r d

theorem sset_ge {s : Store} {r : Nat} (h : s.length ≤ r) (d : Dict) :
    sset s r d = s := by
  induction s generalizing r with
  | nil => rfl
  | cons d0 t ih =>
      cases r with
      | zero => simp at h
      | succ n =>
          show d0 :: sset t n d = d0 :: t
          rw [ih (Nat.le_of_succ_le_succ h)]

theorem sget_sset_self {s : Store} {r : Nat} (h : r < s.length) (d : Dict) :
    sget (sset s r d) r = d := by
  induction s generalizing r with
  | nil => simp at h
  | cons d0 t ih =>
      cases r with
      | zero => rfl
      | succ n => exact ih (Nat.lt_of_succ_lt_succ h)

theorem sget_sset_ne (s : Store) {r r2 : Nat} (h : r ≠ r2) (d : Dict) :
    sget (sset s r d) r2 = sget s r2 := by
  induction s generalizing r r2 with
  | nil => rfl
  | cons d0 t ih =>
      cases r with
      | zero =>
          cases r2 with
          | zero => exact absurd rfl h
          | succ m => rfl
      | succ n =>
          cases r2 with
          | zero => rfl
          | succ m => exact ih fun hh => h (congrArg Nat.succ hh)

theorem alookup_ainsert_cases {α : Type} {l : List (String × α)} {k k2 : String}
    {v w : α} (h : alookup (ainsert l k v) k2 = some w) :
    (k2 = k ∧ w = v) ∨ (k2 ≠ k ∧ alookup l k2 = some w) := by
  by_cases hk : k2 = k
  · subst hk
    rw [alookup_ainsert_self] at h
    exact Or.inl ⟨rfl, (Option.some.inj h).symm⟩
  · rw [alookup_ainsert_ne l v hk] at h
    exact Or.inr ⟨hk, h⟩

theorem alookup_ainsert_ne_none {α : Type} {l : List (String × α)} {k2 : String}
    (k : String) (v : α) (h : alookup l k2 ≠ none) :
    alookup (ainsert l k v) k2 ≠ none := by
  by_cases hk : k2 = k
  · subst hk
    rw [alookup_ainsert_self]
    exact Option.some_ne_none v
  · rwa [alookup_ainsert_ne l v hk]

/-! ## Preservation algebra -/

theorem pres_id (s : Store) : Pres s s := fun _ _ _ _ h => h

theorem pres_trans {a b c : Store} (h1 : Pres a b) (h2 : Pres b c) : Pres a c :=
  fun r g v hv hl => h2 r g v hv (h1 r g v hv hl)

theorem noNew_id (s : Store) : NoNew s s := fun _ _ h => h

theorem noNew_trans {a b c : Store} (h1 : NoNew a b) (h2 : NoNew b c) : NoNew a c :=
  fun r g hl => h1 r g (h2 r g hl)

/-- A null-or-absent-guarded write of a non-null value into one slot
preserves non-null slots and creates no null. -/
theorem presNoNew_write {s : Store} {r : Nat} {g : String} {w : Value}
    (hw : w ≠ .vnull)
    (hg : alookup (sget s r) g = some .vnull ∨ alookup (sget s r) g = none) :
    Pres s (sset s r (ainsert (sget s r) g w)) ∧
    NoNew s (sset s r (ainsert (sget s r) g w)) := by
  by_cases hr : r < s.length
  · constructor
    · intro r2 g2 v hv hl
      by_cases hrr : r = r2
      · subst hrr
        rw [sget_sset_self hr]
        by_cases hgg : g2 = g
        · subst hgg
          rcases hg with hg | hg <;> rw [hl] at hg
          · exact absurd (Option.some.inj hg) hv
          · exact absurd hg (Option.some_ne_none v)
        · rwa [alookup_ainsert_ne _ _ hgg]
      · rwa [sget_sset_ne s hrr]
    · intro r2 g2 hl
      by_cases hrr : r = r2
      · subst hrr
        rw [sget_sset_self hr] at hl
        rcases alookup_ainsert_cases hl with ⟨_, hww⟩ | ⟨_, hll⟩
        · exact absurd hww.symm hw
        · exact hll
      · rwa [sget_sset_ne s hrr] at hl
  · rw [sset_ge (Nat.le_of_not_lt hr)]
    exact ⟨pres_id s, noNew_id s⟩

/-- Appending a dictionary with no null entry preserves non-null slots
and creates no null. -/
theorem presNoNew_append (s : Store) (d : Dict)
    (hd : ∀ g, alookup d g ≠ some .vnull) :
    Pres s (s ++ [d]) ∧ NoNew s (s ++ [d]) := by
  constructor
  · intro r g v hv hl
    by_cases hr : r < s.length
    · rwa [sget_append_lt d hr]
    · rw [sget_ge (Nat.le_of_not_lt hr)] at hl
      exact absurd hl (by simp [alookup])
  · intro r g hl
    by_cases hr : r < s.length
    · rwa [sget_append_lt d hr] at hl
    · by_cases hr2 : r = s.length
      · subst hr2
        rw [sget_append_self] at hl
        exact absurd hl (hd g)
      · have hge : (s ++ [d]).length ≤ r := by
          simp only [List.length_append, List.length_singleton]
          omega
        rw [sget_ge hge] at hl
        exact absurd hl (by simp [alookup])

/-! ## The comprehension dictionary of empty lists -/

theorem alookup_foldl_ainsert_arr (l : List String) (d : Dict) (g : String) :
    alookup (l.foldl (fun d2 g2 => ainsert d2 g2 (.varr [])) d) g = alookup d g ∨
    alookup (l.foldl (fun d2 g2 => ainsert d2 g2 (.varr [])) d) g = some (.varr []) := by
  induction l generalizing d with
  | nil => exact Or.inl rfl
  | cons a t ih =>
      rw [List.foldl_cons]
      rcases ih (ainsert d a (.varr [])) with h | h
      · by_cases hg : g = a
        · subst hg
          rw [alookup_ainsert_self] at h
          exact Or.inr h
        · rw [alookup_ainsert_ne _ _ hg] at h
          exact Or.inl h
      · exact Or.inr h

theorem alookup_foldl_ainsert_arr_mem (l : List String) (d : Dict) (g : String)
    (h : g ∈ l ∨ alookup d g = some (.varr [])) :
    alookup (l.foldl (fun d2 g2 => ainsert d2 g2 (.varr [])) d) g = some (.varr []) := by
  induction l generalizing d with
  | nil =>
      rcases h with h | h
      · cases h
      · exact h
  | cons a t ih =>
      rw [List.foldl_cons]
      by_cases hg : g = a
      · subst hg
        exact ih (ainsert d g (.varr [])) (Or.inr (alookup_ainsert_self d g (.varr [])))
      · rcases h with h | h
        · rcases List.mem_cons.mp h with h | h
          · exact absurd h hg
          · exact ih (ainsert d a (.varr [])) (Or.inl h)
        · refine ih (ainsert d a (.varr [])) (Or.inr ?_)
          rwa [alookup_ainsert_ne _ _ hg]

theorem emptyArraysDict_mem {nfs : List String} {g : String} (h : g ∈ nfs) :
    alookup (emptyArraysDict nfs) g = some (.varr []) :=
  alookup_foldl_ainsert_arr_mem nfs [] g (Or.inl h)

theorem emptyArraysDict_ne_null (nfs : List String) (g : String) :
    alookup (emptyArraysDict nfs) g ≠ some .vnull := by
  rcases alookup_foldl_ainsert_arr nfs [] g with h | h <;>
    rw [emptyArraysDict, h]
  · simp [alookup]
  · intro hh
    exact Value.noConfusion (Option.some.inj hh)

/-! ## Per-step preservation for the normalizer -/

theorem presNoNew_arrStep (c : Nat) (s : Store) (f : String) :
    Pres s (arrStep c s f) ∧ NoNew s (arrStep c s f) := by
  unfold arrStep
  split
  · exact presNoNew_write (fun h => Value.noConfusion h) (Or.inl ‹_›)
  · exact ⟨pres_id s, noNew_id s⟩

theorem presNoNew_nestedFieldStep (r : Nat) (s : Store) (g : String) :
    Pres s (nestedFieldStep r s g) ∧ NoNew s (nestedFieldStep r s g) := by
  unfold nestedFieldStep
  split
  · exact presNoNew_write (fun h => Value.noConfusion h) (Or.inl ‹_›)
  · exact presNoNew_write (fun h => Value.noConfusion h) (Or.inr ‹_›)
  · exact ⟨pres_id s, noNew_id s⟩

theorem presNoNew_foldl_nested (r : Nat) (l : List String) (s : Store) :
    Pres s (l.foldl (nestedFieldStep r) s) ∧ NoNew s (l.foldl (nestedFieldStep r) s) := by
  induction l generalizing s with
  | nil => exact ⟨pres_id s, noNew_id s⟩
  | cons g t ih =>
      rw [List.foldl_cons]
      obtain ⟨p1, n1⟩ := presNoNew_nestedFieldStep r s g
      obtain ⟨p2, n2⟩ := ih (nestedFieldStep r s g)
      exact ⟨pres_trans p1 p2, noNew_trans n1 n2⟩

theorem presNoNew_parentStep (c : Nat) (s : Store) (pn : String × List String)
    (hc : c < s.length) :
    Pres s (parentStep c s pn) ∧ NoNew s (parentStep c s pn) := by
  unfold parentStep
  split
  · exact ⟨pres_id s, noNew_id s⟩
  · -- null parent: allocate the empty-arrays dictionary, then write the
    -- reference into the result dictionary
    rename_i hnull
    obtain ⟨pA, nA⟩ := presNoNew_append s (emptyArraysDict pn.2)
      (emptyArraysDict_ne_null pn.2)
    have hsg : sget (s ++ [emptyArraysDict pn.2]) c = sget s c :=
      sget_append_lt _ hc
    have hguard :
        alookup (sget (s ++ [emptyArraysDict pn.2]) c) pn.1 = some .vnull ∨
        alookup (sget (s ++ [emptyArraysDict pn.2]) c) pn.1 = none := by
      rw [hsg]
      exact Or.inl hnull
    obtain ⟨pB, nB⟩ := presNoNew_write (s := s ++ [emptyArraysDict pn.2])
      (r := c) (g := pn.1) (w := .vref s.length)
      (fun h => Value.noConfusion h) hguard
    rw [hsg] at pB nB
    exact ⟨pres_trans pA pB, noNew_trans nA nB⟩
  · exact presNoNew_foldl_nested _ pn.2 s
  · exact ⟨pres_id s, noNew_id s⟩

/-! ## Lengths and untouched dictionaries -/

theorem length_arrStep (c : Nat) (s : Store) (f : String) :
    (arrStep c s f).length = s.length := by
  unfold arrStep
  split
  · exact length_sset s c _
  · rfl

theorem length_nestedFieldStep (r : Nat) (s : Store) (g : String) :
    (nestedFieldStep r s g).length = s.length := by
  unfold nestedFieldStep
  split
  · exact length_sset s r _
  · exact length_sset s r _
  · rfl

theorem length_foldl_nested (r : Nat) (l : List String) (s : Store) :
    (l.foldl (nestedFieldStep r) s).length = s.length := by
  induction l generalizing s with
  | nil => rfl
  | cons g t ih =>
      rw [List.foldl_cons, ih, length_nestedFieldStep]

theorem length_parentStep_ge (c : Nat) (s : Store) (pn : String × List String) :
    s.length ≤ (parentStep c s pn).length := by
  unfold parentStep
  split
  · exact Nat.le_refl _
  · rw [length_sset]
    simp
  · rw [length_foldl_nested]
  · exact Nat.le_refl _

theorem length_foldl_arr (c : Nat) (l : List String) (s : Store) :
    (l.foldl (arrStep c) s).length = s.length := by
  induction l generalizing s with
  | nil => rfl
  | cons f t ih =>
      rw [List.foldl_cons, ih, length_arrStep]

theorem length_foldl_parent_ge (c : Nat) (l : List (String × List String)) (s : Store) :
    s.length ≤ (l.foldl (parentStep c) s).length := by
  induction l generalizing s with
  | nil => exact Nat.le_refl _
  | cons pn t ih =>
      rw [List.foldl_cons]
      exact Nat.le_trans (length_parentStep_ge c s pn) (ih (parentStep c s pn))

theorem sget_arrStep_ne (c : Nat) (s : Store) (f : String) {x : Nat} (hx : x ≠ c) :
    sget (arrStep c s f) x = sget s x := by
  unfold arrStep
  split
  · exact sget_sset_ne s (fun h => hx h.symm) _
  · rfl

theorem sget_nestedFieldStep_ne (r : Nat) (s : Store) (g : String) {x : Nat}
    (hx : x ≠ r) : sget (nestedFieldStep r s g) x = sget s x := by
  unfold nestedFieldStep
  split
  · exact sget_sset_ne s (fun h => hx h.symm) _
  · exact sget_sset_ne s (fun h => hx h.symm) _
  · rfl

theorem sget_foldl_nested_ne (r : Nat) (l : List String) (s : Store) {x : Nat}
    (hx : x ≠ r) : sget (l.foldl (nestedFieldStep r) s) x = sget s x := by
  induction l generalizing s with
  | nil => rfl
  | cons g t ih =>
      rw [List.foldl_cons, ih, sget_nestedFieldStep_ne r s g hx]

/-! ## The result-dictionary invariant -/

theorem storeInv_arrStep (c : Nat) (s : Store) (f : String)
    (h : StoreInv c s) : StoreInv c (arrStep c s f) := by
  obtain ⟨hc, href⟩ := h
  unfold arrStep
  split
  · refine ⟨by rwa [length_sset], ?_⟩
    intro q r hq
    rw [length_sset]
    rw [sget_sset_self hc] at hq
    rcases alookup_ainsert_cases hq with ⟨_, hw⟩ | ⟨_, hold⟩
    · exact absurd hw (fun h => Value.noConfusion h)
    · exact href q r hold
  · exact ⟨hc, href⟩

theorem storeInv_nestedFold (c r : Nat) (l : List String) (s : Store)
    (hrc : r ≠ c) (h : StoreInv c s) :
    StoreInv c (l.foldl (nestedFieldStep r) s) := by
  obtain ⟨hc, href⟩ := h
  refine ⟨by rwa [length_foldl_nested], ?_⟩
  intro q r2 hq
  rw [length_foldl_nested]
  rw [sget_foldl_nested_ne r l s (fun h => hrc h.symm)] at hq
  exact href q r2 hq

theorem storeInv_parentStep (c : Nat) (s : Store) (pn : String × List String)
    (h : StoreInv c s) : StoreInv c (parentStep c s pn) := by
  obtain ⟨hc, href⟩ := h
  unfold parentStep
  split
  · exact ⟨hc, href⟩
  · have hc2 : c < (s ++ [emptyArraysDict pn.2]).length := by
      simp only [List.length_append, List.length_singleton]
      omega
    refine ⟨by rwa [length_sset], ?_⟩
    intro q r hq
    rw [length_sset]
    rw [sget_sset_self hc2] at hq
    simp only [List.length_append, List.length_singleton]
    rcases alookup_ainsert_cases hq with ⟨_, hw⟩ | ⟨_, hold⟩
    · have : r = s.length := Value.vref.inj hw
      subst this
      exact ⟨Nat.ne_of_gt hc, by omega⟩
    · obtain ⟨h1, h2⟩ := href q r hold
      exact ⟨h1, by omega⟩
  · rename_i r href2
    have hrc : r ≠ c := (href pn.1 r href2).1
    exact storeInv_nestedFold c r pn.2 s hrc ⟨hc, href⟩
  · exact ⟨hc, href⟩

theorem storeInv_foldl_arr (c : Nat) (l : List String) (s : Store)
    (h : StoreInv c s) : StoreInv c (l.foldl (arrStep c) s) := by
  induction l generalizing s with
  | nil => exact h
  | cons f t ih =>
      rw [List.foldl_cons]
      exact ih _ (storeInv_arrStep c s f h)

theorem storeInv_foldl_parent (c : Nat) (l : List (String × List String)) (s : Store)
    (h : StoreInv c s) : StoreInv c (l.foldl (parentStep c) s) := by
  induction l generalizing s with
  | nil => exact h
  | cons pn t ih =>
      rw [List.foldl_cons]
      exact ih _ (storeInv_parentStep c s pn h)

theorem presNoNew_foldl_parent (c : Nat) (l : List (String × List String)) (s : Store)
    (hc : c < s.length) :
    Pres s (l.foldl (parentStep c) s) ∧ NoNew s (l.foldl (parentStep c) s) := by
  induction l generalizing s with
  | nil => exact ⟨pres_id s, noNew_id s⟩
  | cons pn t ih =>
      rw [List.foldl_cons]
      obtain ⟨p1, n1⟩ := presNoNew_parentStep c s pn hc
      have hc2 : c < (parentStep c s pn).length :=
        Nat.lt_of_lt_of_le hc (length_parentStep_ge c s pn)
      obtain ⟨p2, n2⟩ := ih (parentStep c s pn) hc2
      exact ⟨pres_trans p1 p2, noNew_trans n1 n2⟩

theorem presNoNew_foldl_arr (c : Nat) (l : List String) (s : Store) :
    Pres s (l.foldl (arrStep c) s) ∧ NoNew s (l.foldl (arrStep c) s) := by
  induction l generalizing s with
  | nil => exact ⟨pres_id s, noNew_id s⟩
  | cons f t ih =>
      rw [List.foldl_cons]
      obtain ⟨p1, n1⟩ := presNoNew_arrStep c s f
      obtain ⟨p2, n2⟩ := ih (arrStep c s f)
      exact ⟨pres_trans p1 p2, noNew_trans n1 n2⟩

/-! ## Slot tracking through the two normalizer loops -/

theorem arrStep_slot_ne (c : Nat) (s : Store) {f k : String} (h : k ≠ f) :
    alookup (sget (arrStep c s f) c) k = alookup (sget s c) k := by
  unfold arrStep
  split
  · by_cases hc : c < s.length
    · rw [sget_sset_self hc, alookup_ainsert_ne _ _ h]
    · rw [sset_ge (Nat.le_of_not_lt hc)]
  · rfl

theorem arrStep_id_of_nonnull (c : Nat) (s : Store) {f : String}
    (h : alookup (sget s c) f ≠ some .vnull) : arrStep c s f = s := by
  unfold arrStep
  split
  · exact absurd ‹_› h
  · rfl

theorem arrFold_slot (c : Nat) (l : List String) (k : String) :
    ∀ s : Store, (alookup (sget s c) k ≠ some .vnull ∨ k ∉ l) →
    alookup (sget (l.foldl (arrStep c) s) c) k = alookup (sget s c) k := by
  induction l with
  | nil => exact fun s _ => rfl
  | cons f t ih =>
      intro s h
      rw [List.foldl_cons]
      by_cases hk : k = f
      · subst hk
        have hnn : alookup (sget s c) k ≠ some .vnull := by
          rcases h with h | h
          · exact h
          · exact absurd (List.mem_cons_self _ _) h
        rw [arrStep_id_of_nonnull c s hnn]
        exact ih s (Or.inl hnn)
      · rw [ih (arrStep c s f) ?_, arrStep_slot_ne c s hk]
        rcases h with h | h
        · left
          rwa [arrStep_slot_ne c s hk]
        · right
          exact fun hm => h (List.mem_cons_of_mem f hm)

theorem arrFold_null_to_empty (c : Nat) (l : List String) (k : String) :
    ∀ s : Store, k ∈ l → alookup (sget s c) k = some .vnull →
    alookup (sget (l.foldl (arrStep c) s) c) k = some (.varr []) := by
  induction l with
  | nil =>
      intro s hk
      cases hk
  | cons f t ih =>
      intro s hk hnull
      rw [List.foldl_cons]
      by_cases hkf : k = f
      · subst hkf
        have hc : c < s.length := by
          by_contra hc
          rw [sget_ge (Nat.le_of_not_lt hc)] at hnull
          exact absurd hnull (by simp [alookup])
        have hstep : alookup (sget (arrStep c s k) c) k = some (.varr []) := by
          unfold arrStep
          rw [hnull]
          rw [sget_sset_self hc, alookup_ainsert_self]
        exact (presNoNew_foldl_arr c t (arrStep c s k)).1 c k (.varr [])
          (fun h => Value.noConfusion h) hstep
      · rcases List.mem_cons.mp hk with h | h
        · exact absurd h hkf
        · exact ih (arrStep c s f) h
            (by rw [arrStep_slot_ne c s hkf]; exact hnull)

theorem parentStep_slot_ne (c : Nat) (s : Store) (pn : String × List String)
    {k : String} (hk : k ≠ pn.1) (hinv : StoreInv c s) :
    alookup (sget (parentStep c s pn) c) k = alookup (sget s c) k := by
  unfold parentStep
  split
  · rfl
  · have hc1 : c < s.length := hinv.1
    have hc2 : c < (s ++ [emptyArraysDict pn.2]).length := by
      simp only [List.length_append, List.length_singleton]
      omega
    rw [sget_sset_self hc2, alookup_ainsert_ne _ _ hk]
  · rename_i r hr
    have hrc : r ≠ c := (hinv.2 pn.1 r hr).1
    rw [sget_foldl_nested_ne r pn.2 s (fun h => hrc h.symm)]
  · rfl

theorem parentFold_slot (c : Nat) (l : List (String × List String)) (k : String) :
    ∀ s : Store, k ∉ l.map Prod.fst → StoreInv c s →
    alookup (sget (l.foldl (parentStep c) s) c) k = alookup (sget s c) k := by
  induction l with
  | nil => exact fun s _ _ => rfl
  | cons pn t ih =>
      intro s hk hinv
      rw [List.map_cons] at hk
      have hk1 : k ≠ pn.1 := fun h => hk (h ▸ List.mem_cons_self _ _)
      have hkt : k ∉ t.map Prod.fst := fun h => hk (List.mem_cons_of_mem _ h)
      rw [List.foldl_cons, ih _ hkt (storeInv_parentStep c s pn hinv),
        parentStep_slot_ne c s pn hk1 hinv]

/-! ## Presence of keys in the result dictionary -/

theorem arrStep_ne_none (c : Nat) (s : Store) (f : String) {k : String}
    (h : alookup (sget s c) k ≠ none) :
    alookup (sget (arrStep c s f) c) k ≠ none := by
  unfold arrStep
  split
  · by_cases hc : c < s.length
    · rw [sget_sset_self hc]
      exact alookup_ainsert_ne_none _ _ h
    · rwa [sset_ge (Nat.le_of_not_lt hc)]
  · exact h

theorem parentStep_ne_none (c : Nat) (s : Store) (pn : String × List String)
    {k : String} (hinv : StoreInv c s) (h : alookup (sget s c) k ≠ none) :
    alookup (sget (parentStep c s pn) c) k ≠ none := by
  unfold parentStep
  split
  · exact h
  · have hc1 : c < s.length := hinv.1
    have hc2 : c < (s ++ [emptyArraysDict pn.2]).length := by
      simp only [List.length_append, List.length_singleton]
      omega
    rw [sget_sset_self hc2]
    exact alookup_ainsert_ne_none _ _ h
  · rename_i r hr
    have hrc : r ≠ c := (hinv.2 pn.1 r hr).1
    rwa [sget_foldl_nested_ne r pn.2 s (fun hh => hrc hh.symm)]
  · exact h

theorem arrFold_ne_none (c : Nat) (l : List String) {k : String} :
    ∀ s : Store, alookup (sget s c) k ≠ none →
    alookup (sget (l.foldl (arrStep c) s) c) k ≠ none := by
  induction l with
  | nil => exact fun s h => h
  | cons f t ih =>
      intro s h
      rw [List.foldl_cons]
      exact ih _ (arrStep_ne_none c s f h)

theorem parentFold_ne_none (c : Nat) (l : List (String × List String)) {k : String} :
    ∀ s : Store, StoreInv c s → alookup (sget s c) k ≠ none →
    alookup (sget (l.foldl (parentStep c) s) c) k ≠ none := by
  induction l with
  | nil => exact fun s _ h => h
  | cons pn t ih =>
      intro s hinv h
      rw [List.foldl_cons]
      exact ih _ (storeInv_parentStep c s pn hinv) (parentStep_ne_none c s pn hinv h)

theorem arrStep_ne_none_bwd (c : Nat) (s : Store) (f : String) {k : String}
    (h : alookup (sget (arrStep c s f) c) k ≠ none) :
    alookup (sget s c) k ≠ none := by
  revert h
  unfold arrStep
  split
  · by_cases hc : c < s.length
    · rw [sget_sset_self hc]
      intro h hn
      by_cases hk : k = f
      · subst hk
        rw [hn] at *
        rename_i hnull
        exact Option.noConfusion hnull
      · rw [alookup_ainsert_ne _ _ hk] at h
        exact h hn
    · rw [sset_ge (Nat.le_of_not_lt hc)]
      exact id
  · exact id

theorem parentStep_ne_none_bwd (c : Nat) (s : Store) (pn : String × List String)
    {k : String} (hinv : StoreInv c s)
    (h : alookup (sget (parentStep c s pn) c) k ≠ none) :
    alookup (sget s c) k ≠ none := by
  revert h
  unfold parentStep
  split
  · exact id
  · have hc1 : c < s.length := hinv.1
    have hc2 : c < (s ++ [emptyArraysDict pn.2]).length := by
      simp only [List.length_append, List.length_singleton]
      omega
    rw [sget_sset_self hc2]
    intro h hn
    by_cases hk : k = pn.1
    · subst hk
      rename_i hnull
      rw [hn] at hnull
      exact Option.noConfusion hnull
    · rw [alookup_ainsert_ne _ _ hk] at h
      exact h hn
  · rename_i r hr
    have hrc : r ≠ c := (hinv.2 pn.1 r hr).1
    rw [sget_foldl_nested_ne r pn.2 s (fun hh => hrc hh.symm)]
    exact id
  · exact id

theorem arrFold_ne_none_bwd (c : Nat) (l : List String) {k : String} :
    ∀ s : Store, alookup (sget (l.foldl (arrStep c) s) c) k ≠ none →
    alookup (sget s c) k ≠ none := by
  induction l with
  | nil => exact fun s h => h
  | cons f t ih =>
      intro s h
      rw [List.foldl_cons] at h
      exact arrStep_ne_none_bwd c s f (ih _ h)

theorem parentFold_ne_none_bwd (c : Nat) (l : List (String × List String)) {k : String} :
    ∀ s : Store, StoreInv c s →
    alookup (sget (l.foldl (parentStep c) s) c) k ≠ none →
    alookup (sget s c) k ≠ none := by
  induction l with
  | nil => exact fun s _ h => h
  | cons pn t ih =>
      intro s hinv h
      rw [List.foldl_cons] at h
      exact parentStep_ne_none_bwd c s pn hinv
        (ih _ (storeInv_parentStep c s pn hinv) h)

/-! ## Away from the result dictionary, only empty lists are written -/

theorem onlyEmpty_id (c : Nat) (s : Store) : OnlyEmpty c s s :=
  fun _ _ _ => Or.inl rfl

theorem onlyEmpty_trans {c : Nat} {a b d : Store}
    (h1 : OnlyEmpty c a b) (h2 : OnlyEmpty c b d) : OnlyEmpty c a d := by
  intro r hr g
  rcases h2 r hr g with h | h
  · rw [h]
    exact h1 r hr g
  · exact Or.inr h

theorem onlyEmpty_arrStep (c : Nat) (s : Store) (f : String) :
    OnlyEmpty c s (arrStep c s f) := by
  intro r hr g
  rw [sget_arrStep_ne c s f hr]
  exact Or.inl rfl

theorem onlyEmpty_nestedFieldStep (c x : Nat) (s : Store) (g : String) :
    OnlyEmpty c s (nestedFieldStep x s g) := by
  intro r hr g2
  by_cases hrx : r = x
  · subst hrx
    by_cases hlt : r < s.length
    · unfold nestedFieldStep
      split
      · rw [sget_sset_self hlt]
        by_cases hg : g2 = g
        · subst hg
          exact Or.inr (alookup_ainsert_self _ _ _)
        · exact Or.inl (alookup_ainsert_ne _ _ hg)
      · rw [sget_sset_self hlt]
        by_cases hg : g2 = g
        · subst hg
          exact Or.inr (alookup_ainsert_self _ _ _)
        · exact Or.inl (alookup_ainsert_ne _ _ hg)
      · exact Or.inl rfl
    · unfold nestedFieldStep
      split
      · rw [sset_ge (Nat.le_of_not_lt hlt)]
        exact Or.inl rfl
      · rw [sset_ge (Nat.le_of_not_lt hlt)]
        exact Or.inl rfl
      · exact Or.inl rfl
  · rw [sget_nestedFieldStep_ne x s g hrx]
    exact Or.inl rfl

theorem onlyEmpty_foldl_nested (c x : Nat) (l : List String) :
    ∀ s : Store, OnlyEmpty c s (l.foldl (nestedFieldStep x) s) := by
  induction l with
  | nil => exact fun s => onlyEmpty_id c s
  | cons g t ih =>
      intro s
      rw [List.foldl_cons]
      exact onlyEmpty_trans (onlyEmpty_nestedFieldStep c x s g) (ih _)

theorem onlyEmpty_parentStep (c : Nat) (s : Store) (pn : String × List String) :
    OnlyEmpty c s (parentStep c s pn) := by
  unfold parentStep
  split
  · exact onlyEmpty_id c s
  · intro r hr g
    have hsr : sget (sset (s ++ [emptyArraysDict pn.2]) c
        (ainsert (sget s c) pn.1 (.vref s.length))) r =
        sget (s ++ [emptyArraysDict pn.2]) r :=
      sget_sset_ne _ (fun h => hr h.symm) _
    rw [hsr]
    by_cases hlt : r < s.length
    · rw [sget_append_lt _ hlt]
      exact Or.inl rfl
    · by_cases hre : r = s.length
      · subst hre
        rw [sget_append_self]
        rcases alookup_foldl_ainsert_arr pn.2 [] g with h | h
        · rw [sget_ge (Nat.le_of_not_lt hlt)]
          exact Or.inl (by rw [emptyArraysDict, h])
        · exact Or.inr (by rw [emptyArraysDict, h])
      · have : (s ++ [emptyArraysDict pn.2]).length ≤ r := by
          simp only [List.length_append, List.length_singleton]
          omega
        rw [sget_ge this, sget_ge (Nat.le_of_not_lt hlt)]
        exact Or.inl rfl
  · exact onlyEmpty_foldl_nested c _ pn.2 s
  · exact onlyEmpty_id c s

theorem onlyEmpty_foldl_parent (c : Nat) (l : List (String × List String)) :
    ∀ s : Store, OnlyEmpty c s (l.foldl (parentStep c) s) := by
  induction l with
  | nil => exact fun s => onlyEmpty_id c s
  | cons pn t ih =>
      intro s
      rw [List.foldl_cons]
      exact onlyEmpty_trans (onlyEmpty_parentStep c s pn) (ih _)

/-! ## The inner nested-field loop -/

theorem nestedFieldStep_slot_ne (r : Nat) (s : Store) {g g2 : String} (h : g2 ≠ g) :
    alookup (sget (nestedFieldStep r s g) r) g2 = alookup (sget s r) g2 := by
  unfold nestedFieldStep
  split
  · by_cases hlt : r < s.length
    · rw [sget_sset_self hlt, alookup_ainsert_ne _ _ h]
    · rw [sset_ge (Nat.le_of_not_lt hlt)]
  · by_cases hlt : r < s.length
    · rw [sget_sset_self hlt, alookup_ainsert_ne _ _ h]
    · rw [sset_ge (Nat.le_of_not_lt hlt)]
  · rfl

theorem innerFold_to_empty (r : Nat) (l : List String) (g : String) :
    ∀ s : Store, r < s.length → g ∈ l →
    (alookup (sget s r) g = some .vnull ∨ alookup (sget s r) g = none ∨
      alookup (sget s r) g = some (.varr [])) →
    alookup (sget (l.foldl (nestedFieldStep r) s) r) g = some (.varr []) := by
  induction l with
  | nil =>
      intro s _ hg
      cases hg
  | cons g2 t ih =>
      intro s hlt hg hcur
      rw [List.foldl_cons]
      by_cases hgg : g = g2
      · subst hgg
        have hstep : alookup (sget (nestedFieldStep r s g) r) g = some (.varr []) := by
          unfold nestedFieldStep
          rcases hcur with h | h | h <;> rw [h]
          · rw [sget_sset_self hlt, alookup_ainsert_self]
          · rw [sget_sset_self hlt, alookup_ainsert_self]
          · exact h
        exact (presNoNew_foldl_nested r t _).1 r g (.varr [])
          (fun hh => Value.noConfusion hh) hstep
      · refine ih (nestedFieldStep r s g2) ?_ ?_ ?_
        · rw [length_nestedFieldStep]
          exact hlt
        · rcases List.mem_cons.mp hg with h | h
          · exact absurd h hgg
          · exact h
        · rw [nestedFieldStep_slot_ne r s hgg]
          exact hcur

theorem innerFold_nonnull (r : Nat) (l : List String) (g : String) (s : Store)
    (hlt : r < s.length) (hg : g ∈ l) :
    ∃ w, alookup (sget (l.foldl (nestedFieldStep r) s) r) g = some w ∧
      w ≠ .vnull := by
  rcases hd : alookup (sget s r) g with _ | w
  · exact ⟨.varr [], innerFold_to_empty r l g s hlt hg (Or.inr (Or.inl hd)),
      fun hh => Value.noConfusion hh⟩
  · by_cases hw : w = .vnull
    · subst hw
      exact ⟨.varr [], innerFold_to_empty r l g s hlt hg (Or.inl hd),
        fun hh => Value.noConfusion hh⟩
    · exact ⟨w, (presNoNew_foldl_nested r l s).1 r g w hw hd, hw⟩

/-! ## The outer nested loop: behaviour at each parent field -/

theorem parentFold_null_parent (c : Nat) (l : List (String × List String)) :
    ∀ s : Store, StoreInv c s → (l.map Prod.fst).Nodup →
    ∀ pn ∈ l, alookup (sget s c) pn.1 = some .vnull →
    ∃ n, alookup (sget (l.foldl (parentStep c) s) c) pn.1 = some (.vref n) ∧
      ∀ g ∈ pn.2, alookup (sget (l.foldl (parentStep c) s) n) g = some (.varr []) := by
  induction l with
  | nil =>
      intro s _ _ pn hpn
      cases hpn
  | cons q t ih =>
      intro s hinv hnd pn hpn hnull
      rw [List.foldl_cons]
      rcases List.mem_cons.mp hpn with heq | hmem
      · subst heq
        have hc : c < s.length := hinv.1
        have hstep_eq : parentStep c s pn =
            sset (s ++ [emptyArraysDict pn.2]) c
              (ainsert (sget s c) pn.1 (.vref s.length)) := by
          unfold parentStep
          rw [hnull]
        have hcs2 : c < (s ++ [emptyArraysDict pn.2]).length := by
          simp only [List.length_append, List.length_singleton]
          omega
        have hslot : alookup (sget (parentStep c s pn) c) pn.1
            = some (.vref s.length) := by
          rw [hstep_eq, sget_sset_self hcs2, alookup_ainsert_self]
        have hdict : sget (parentStep c s pn) s.length = emptyArraysDict pn.2 := by
          rw [hstep_eq, sget_sset_ne _ (Nat.ne_of_lt hc) _, sget_append_self]
        have hc2 : c < (parentStep c s pn).length :=
          Nat.lt_of_lt_of_le hc (length_parentStep_ge c s pn)
        obtain ⟨pT, _⟩ := presNoNew_foldl_parent c t (parentStep c s pn) hc2
        refine ⟨s.length, ?_, ?_⟩
        · exact pT c pn.1 (.vref s.length) (fun hh => Value.noConfusion hh) hslot
        · intro g hgmem
          have : alookup (sget (parentStep c s pn) s.length) g = some (.varr []) := by
            rw [hdict]
            exact emptyArraysDict_mem hgmem
          exact pT s.length g (.varr []) (fun hh => Value.noConfusion hh) this
      · rw [List.map_cons] at hnd
        obtain ⟨hq1, hndt⟩ := List.nodup_cons.mp hnd
        have hne : pn.1 ≠ q.1 :=
          fun h => hq1 (h ▸ List.mem_map_of_mem Prod.fst hmem)
        refine ih (parentStep c s q) (storeInv_parentStep c s q hinv) hndt pn hmem ?_
        rw [parentStep_slot_ne c s q hne hinv]
        exact hnull

theorem parentFold_ref_parent (c : Nat) (l : List (String × List String)) :
    ∀ (s s0 : Store), StoreInv c s → (l.map Prod.fst).Nodup → OnlyEmpty c s0 s →
    ∀ pn ∈ l, ∀ r, r ≠ c → r < s.length →
    alookup (sget s c) pn.1 = some (.vref r) →
    alookup (sget (l.foldl (parentStep c) s) c) pn.1 = some (.vref r) ∧
    (∀ g ∈ pn.2, ∃ w,
      alookup (sget (l.foldl (parentStep c) s) r) g = some w ∧ w ≠ .vnull) ∧
    (∀ g ∈ pn.2,
      (alookup (sget s0 r) g = some .vnull ∨ alookup (sget s0 r) g = none) →
      alookup (sget (l.foldl (parentStep c) s) r) g = some (.varr [])) := by
  induction l with
  | nil =>
      intro s s0 _ _ _ pn hpn
      cases hpn
  | cons q t ih =>
      intro s s0 hinv hnd hoe pn hpn r hrc hrlt href
      rw [List.foldl_cons]
      rcases List.mem_cons.mp hpn with heq | hmem
      · subst heq
        have hc : c < s.length := hinv.1
        have hstep_eq : parentStep c s pn = pn.2.foldl (nestedFieldStep r) s := by
          unfold parentStep
          rw [href]
        have hslot : alookup (sget (parentStep c s pn) c) pn.1
            = some (.vref r) := by
          rw [hstep_eq, sget_foldl_nested_ne r pn.2 s (fun h => hrc h.symm)]
          exact href
        have hc2 : c < (parentStep c s pn).length :=
          Nat.lt_of_lt_of_le hc (length_parentStep_ge c s pn)
        obtain ⟨pT, _⟩ := presNoNew_foldl_parent c t (parentStep c s pn) hc2
        refine ⟨pT c pn.1 (.vref r) (fun hh => Value.noConfusion hh) hslot, ?_, ?_⟩
        · intro g hgmem
          obtain ⟨w, hw, hwn⟩ := innerFold_nonnull r pn.2 g s hrlt hgmem
          rw [← hstep_eq] at hw
          exact ⟨w, pT r g w hwn hw, hwn⟩
        · intro g hgmem horig
          have hcur : alookup (sget s r) g = some .vnull ∨
              alookup (sget s r) g = none ∨
              alookup (sget s r) g = some (.varr []) := by
            rcases hoe r hrc g with h | h
            · rw [h]
              rcases horig with h2 | h2
              · exact Or.inl h2
              · exact Or.inr (Or.inl h2)
            · exact Or.inr (Or.inr h)
          have hfill : alookup (sget (parentStep c s pn) r) g = some (.varr []) := by
            rw [hstep_eq]
            exact innerFold_to_empty r pn.2 g s hrlt hgmem hcur
          exact pT r g (.varr []) (fun hh => Value.noConfusion hh) hfill
      · rw [List.map_cons] at hnd
        obtain ⟨hq1, hndt⟩ := List.nodup_cons.mp hnd
        have hne : pn.1 ≠ q.1 :=
          fun h => hq1 (h ▸ List.mem_map_of_mem Prod.fst hmem)
        refine ih (parentStep c s q) s0 (storeInv_parentStep c s q hinv) hndt
          (onlyEmpty_trans hoe (onlyEmpty_parentStep c s q)) pn hmem r hrc
          (Nat.lt_of_lt_of_le hrlt (length_parentStep_ge c s q)) ?_
        rw [parentStep_slot_ne c s q hne hinv]
        exact href

/-! ## Uniqueness of the nested mapping's keys, and Boolean hypotheses -/

theorem alookup_eq_none_iff {α : Type} {l : List (String × α)} {k : String} :
    alookup l k = none ↔ k ∉ l.map Prod.fst := by
  induction l with
  | nil => simp [alookup]
  | cons kv t ih =>
      obtain ⟨k0, v0⟩ := kv
      by_cases hk : k0 = k
      · subst hk
        simp [alookup]
      · have hk2 : ¬ k = k0 := fun h => hk h.symm
        simp [alookup, hk, hk2, ih]

theorem mem_keys_ainsert {α : Type} {l : List (String × α)} {k k2 : String} {v : α}
    (h : k2 ∈ (ainsert l k v).map Prod.fst) : k2 = k ∨ k2 ∈ l.map Prod.fst := by
  by_cases hk : k2 = k
  · exact Or.inl hk
  · right
    have h1 : alookup (ainsert l k v) k2 ≠ none :=
      fun hn => (alookup_eq_none_iff.mp hn) h
    rw [alookup_ainsert_ne l v hk] at h1
    by_contra hmem
    exact h1 (alookup_eq_none_iff.mpr hmem)

theorem keysNodup_ainsert {α : Type} {l : List (String × α)} (k : String) (v : α)
    (h : (l.map Prod.fst).Nodup) : ((ainsert l k v).map Prod.fst).Nodup := by
  induction l with
  | nil => simp [ainsert]
  | cons kv t ih =>
      obtain ⟨k0, v0⟩ := kv
      rw [List.map_cons] at h
      obtain ⟨h0, ht⟩ := List.nodup_cons.mp h
      by_cases hk : k0 = k
      · subst hk
        simp only [ainsert, if_pos rfl, List.map_cons]
        exact List.nodup_cons.mpr ⟨h0, ht⟩
      · simp only [ainsert, if_neg hk, List.map_cons]
        refine List.nodup_cons.mpr ⟨?_, ih ht⟩
        intro hmem
        rcases mem_keys_ainsert hmem with h1 | h1
        · exact hk h1
        · exact h0 h1

theorem nestedAccStep_keysNodup (defs : List (String × JSchema))
    (acc : List (String × List String)) (fs : String × JSchema)
    (h : (acc.map Prod.fst).Nodup) :
    (((nestedAccStep defs acc fs).map Prod.fst)).Nodup := by
  unfold nestedAccStep
  split
  · split
    · split
      · exact h
      · dsimp only
        split
        · split
          · exact h
          · exact keysNodup_ainsert _ _ h
        · exact h
    · exact h
  · exact h

theorem naf_keys_nodup (schema : JSchema) :
    ((get_nested_array_fields schema).map Prod.fst).Nodup := by
  unfold get_nested_array_fields
  have main : ∀ (props : List (String × JSchema))
      (acc : List (String × List String)), (acc.map Prod.fst).Nodup →
      ((props.foldl (nestedAccStep schema.defs) acc).map Prod.fst).Nodup := by
    intro props
    induction props with
    | nil => exact fun acc h => h
    | cons fs t ih =>
        intro acc h
        rw [List.foldl_cons]
        exact ih _ (nestedAccStep_keysNodup schema.defs acc fs h)
  exact main schema.properties [] List.nodup_nil

theorem alookup_mem {α : Type} {l : List (String × α)} {k : String} {v : α}
    (h : alookup l k = some v) : (k, v) ∈ l := by
  induction l with
  | nil => exact absurd h (by simp [alookup])
  | cons kv t ih =>
      obtain ⟨k0, v0⟩ := kv
      by_cases hk : k0 = k
      · subst hk
        rw [alookup, if_pos rfl] at h
        exact (Option.some.inj h) ▸ List.mem_cons_self _ _
  -- value injected: (k0, v) with v = v0
      · rw [alookup, if_neg hk] at h
        exact List.mem_cons_of_mem _ (ih h)

theorem closedDictB_lookup {dd : Dict} {n : Nat}
    (h : closedDictB dd n = true) {q : String} {r : Nat}
    (hl : alookup dd q = some (.vref r)) : r < n := by
  have hmem := alookup_mem hl
  have := (List.all_eq_true.mp h) _ hmem
  simpa [refLt] using this

theorem noRefToB_lookup {dd : Dict} {x : Nat}
    (h : noRefToB dd x = true) {q : String} {r : Nat}
    (hl : alookup dd q = some (.vref r)) : r ≠ x := by
  have hmem := alookup_mem hl
  have := (List.all_eq_true.mp h) _ hmem
  simpa [notRefTo] using this

theorem onlyEmpty_foldl_arr (c : Nat) (l : List String) :
    ∀ s : Store, OnlyEmpty c s (l.foldl (arrStep c) s) := by
  induction l with
  | nil => exact fun s => onlyEmpty_id c s
  | cons f t ih =>
      intro s
      rw [List.foldl_cons]
      exact onlyEmpty_trans (onlyEmpty_arrStep c s f) (ih _)

/-! ## The input dictionary itself is never written -/

theorem avoids_arrStep (c d : Nat) (s : Store) (f : String)
    (h : AvoidsRef c d s) : AvoidsRef c d (arrStep c s f) := by
  intro q r hq
  unfold arrStep at hq
  revert hq
  split
  · by_cases hc : c < s.length
    · rw [sget_sset_self hc]
      intro hq
      rcases alookup_ainsert_cases hq with ⟨_, hw⟩ | ⟨_, hold⟩
      · exact absurd hw (fun hh => Value.noConfusion hh)
      · exact h q r hold
    · rw [sset_ge (Nat.le_of_not_lt hc)]
      exact h q r
  · exact h q r

theorem avoids_parentStep (c d : Nat) (s : Store) (pn : String × List String)
    (hdlt : d < s.length) (hinv : StoreInv c s)
    (h : AvoidsRef c d s) : AvoidsRef c d (parentStep c s pn) := by
  intro q r hq
  unfold parentStep at hq
  revert hq
  split
  · exact h q r
  · have hc1 : c < s.length := hinv.1
    have hc2 : c < (s ++ [emptyArraysDict pn.2]).length := by
      simp only [List.length_append, List.length_singleton]
      omega
    rw [sget_sset_self hc2]
    intro hq
    rcases alookup_ainsert_cases hq with ⟨_, hw⟩ | ⟨_, hold⟩
    · have : r = s.length := Value.vref.inj hw
      omega
    · exact h q r hold
  · rename_i r2 hr2
    have hr2c : r2 ≠ c := (hinv.2 pn.1 r2 hr2).1
    rw [sget_foldl_nested_ne r2 pn.2 s (fun hh => hr2c hh.symm)]
    exact h q r
  · exact h q r

theorem sgetd_parentStep (c d : Nat) (s : Store) (pn : String × List String)
    (hdc : d ≠ c) (hdlt : d < s.length) (hinv : StoreInv c s)
    (havoid : AvoidsRef c d s) : sget (parentStep c s pn) d = sget s d := by
  unfold parentStep
  split
  · rfl
  · rw [sget_sset_ne _ (fun hh => hdc hh.symm) _, sget_append_lt _ hdlt]
  · rename_i r2 hr2
    have : r2 ≠ d := havoid pn.1 r2 hr2
    rw [sget_foldl_nested_ne r2 pn.2 s (fun hh => this hh.symm)]
  · rfl

theorem sgetd_foldl_arr (c d : Nat) (l : List String) (s : Store) (hdc : d ≠ c) :
    sget (l.foldl (arrStep c) s) d = sget s d := by
  induction l generalizing s with
  | nil => rfl
  | cons f t ih =>
      rw [List.foldl_cons, ih, sget_arrStep_ne c s f hdc]

theorem avoids_foldl_arr (c d : Nat) (l : List String) :
    ∀ s : Store, AvoidsRef c d s → AvoidsRef c d (l.foldl (arrStep c) s) := by
  induction l with
  | nil => exact fun s h => h
  | cons f t ih =>
      intro s h
      rw [List.foldl_cons]
      exact ih _ (avoids_arrStep c d s f h)

theorem sgetd_foldl_parent (c d : Nat) (l : List (String × List String)) :
    ∀ s : Store, d ≠ c → d < s.length → StoreInv c s → AvoidsRef c d s →
    sget (l.foldl (parentStep c) s) d = sget s d := by
  induction l with
  | nil => exact fun s _ _ _ _ => rfl
  | cons pn t ih =>
      intro s hdc hdlt hinv havoid
      rw [List.foldl_cons,
        ih _ hdc (Nat.lt_of_lt_of_le hdlt (length_parentStep_ge c s pn))
          (storeInv_parentStep c s pn hinv)
          (avoids_parentStep c d s pn hdlt hinv havoid),
        sgetd_parentStep c d s pn hdc hdlt hinv havoid]

/-! ## Claim theorems about the normalizer -/

/-- C1: for every schema — hence in particular for the Spec schema — and
every well-formed input dictionary, the mapping `apply_schema_defaults`
returns holds no null at any key the introspector identifies as
sequence-typed: a present null at a top-level array field becomes `[]`;
a null object-typed parent with known nested array sub-fields becomes an
object mapping each of them to `[]`; and inside a present
dictionary-valued parent, every known nested array sub-field that was
null or absent becomes `[]` while the rest stay non-null. -/
theorem C1_no_null_sequences (schema : JSchema) (s : Store) (d : Nat)
    (hd : d < s.length) (hclosed : closedDictB (sget s d) s.length = true) :
    (∀ f ∈ get_array_fields schema,
      alookup (sget (apply_schema_defaults schema s d).1
        (apply_schema_defaults schema s d).2) f ≠ some .vnull) ∧
    (∀ f ∈ get_array_fields schema, alookup (sget s d) f = some .vnull →
      alookup (sget (apply_schema_defaults schema s d).1
        (apply_schema_defaults schema s d).2) f = some (.varr [])) ∧
    (∀ pn ∈ get_nested_array_fields schema, pn.1 ∉ get_array_fields schema →
      alookup (sget s d) pn.1 = some .vnull →
      ∃ n, alookup (sget (apply_schema_defaults schema s d).1
          (apply_schema_defaults schema s d).2) pn.1 = some (.vref n) ∧
        ∀ g ∈ pn.2, alookup (sget (apply_schema_defaults schema s d).1 n) g
          = some (.varr [])) ∧
    (∀ pn ∈ get_nested_array_fields schema, ∀ r,
      alookup (sget s d) pn.1 = some (.vref r) →
      alookup (sget (apply_schema_defaults schema s d).1
        (apply_schema_defaults schema s d).2) pn.1 = some (.vref r) ∧
      (∀ g ∈ pn.2,
        (alookup (sget s r) g = some .vnull ∨ alookup (sget s r) g = none) →
        alookup (sget (apply_schema_defaults schema s d).1 r) g
          = some (.varr [])) ∧
      (∀ g ∈ pn.2, ∃ w,
        alookup (sget (apply_schema_defaults schema s d).1 r) g = some w ∧
        w ≠ .vnull)) := by
  rw [show apply_schema_defaults schema s d =
      ((get_nested_array_fields schema).foldl (parentStep s.length)
        ((get_array_fields schema).foldl (arrStep s.length) (s ++ [sget s d])),
       s.length) from rfl]
  dsimp only
  set c := s.length with hcdef
  set s0 : Store := s ++ [sget s d] with hs0def
  set s1 := (get_array_fields schema).foldl (arrStep c) s0 with hs1def
  set out := (get_nested_array_fields schema).foldl (parentStep c) s1 with houtdef
  have hs0c : sget s0 c = sget s d := sget_append_self s (sget s d)
  have hlen0 : c < s0.length := by
    rw [hs0def]
    simp only [List.length_append, List.length_singleton]
    omega
  have hinv0 : StoreInv c s0 := by
    refine ⟨hlen0, ?_⟩
    intro q r hq
    rw [hs0c] at hq
    have hr := closedDictB_lookup hclosed hq
    exact ⟨Nat.ne_of_lt hr, Nat.lt_trans hr hlen0⟩
  have hinv1 : StoreInv c s1 := storeInv_foldl_arr c _ s0 hinv0
  have hnd := naf_keys_nodup schema
  obtain ⟨pres1, nonew1⟩ := presNoNew_foldl_arr c (get_array_fields schema) s0
  have hlen1 : c < s1.length := by
    rw [hs1def, length_foldl_arr]
    exact hlen0
  obtain ⟨pres2, nonew2⟩ :=
    presNoNew_foldl_parent c (get_nested_array_fields schema) s1 hlen1
  have hoe1 : OnlyEmpty c s0 s1 := onlyEmpty_foldl_arr c _ s0
  have conjA : ∀ f ∈ get_array_fields schema,
      alookup (sget s d) f = some .vnull →
      alookup (sget out c) f = some (.varr []) := by
    intro f hf hnull
    have h0 : alookup (sget s0 c) f = some .vnull := by
      rw [hs0c]
      exact hnull
    have h1 : alookup (sget s1 c) f = some (.varr []) :=
      arrFold_null_to_empty c _ f s0 hf h0
    exact pres2 c f (.varr []) (fun hh => Value.noConfusion hh) h1
  have conjB : ∀ f ∈ get_array_fields schema,
      alookup (sget out c) f ≠ some .vnull := by
    intro f hf hcontra
    have h1 : alookup (sget s1 c) f = some .vnull := nonew2 c f hcontra
    have h0 : alookup (sget s0 c) f = some .vnull := nonew1 c f h1
    have hnull : alookup (sget s d) f = some .vnull := by
      rw [← hs0c]
      exact h0
    have hA := conjA f hf hnull
    rw [hA] at hcontra
    exact Value.noConfusion (Option.some.inj hcontra)
  have conjC : ∀ pn ∈ get_nested_array_fields schema,
      pn.1 ∉ get_array_fields schema →
      alookup (sget s d) pn.1 = some .vnull →
      ∃ n, alookup (sget out c) pn.1 = some (.vref n) ∧
        ∀ g ∈ pn.2, alookup (sget out n) g = some (.varr []) := by
    intro pn hpn hnotaf hnull
    have h0 : alookup (sget s0 c) pn.1 = some .vnull := by
      rw [hs0c]
      exact hnull
    have h1 : alookup (sget s1 c) pn.1 = some .vnull := by
      rw [hs1def, arrFold_slot c _ pn.1 s0 (Or.inr hnotaf)]
      exact h0
    exact parentFold_null_parent c _ s1 hinv1 hnd pn hpn h1
  have conjD : ∀ pn ∈ get_nested_array_fields schema, ∀ r,
      alookup (sget s d) pn.1 = some (.vref r) →
      alookup (sget out c) pn.1 = some (.vref r) ∧
      (∀ g ∈ pn.2,
        (alookup (sget s r) g = some .vnull ∨ alookup (sget s r) g = none) →
        alookup (sget out r) g = some (.varr [])) ∧
      (∀ g ∈ pn.2, ∃ w, alookup (sget out r) g = some w ∧ w ≠ .vnull) := by
    intro pn hpn r href
    have hrc : r < c := closedDictB_lookup hclosed href
    have h0 : alookup (sget s0 c) pn.1 = some (.vref r) := by
      rw [hs0c]
      exact href
    have h1 : alookup (sget s1 c) pn.1 = some (.vref r) := by
      rw [hs1def, arrFold_slot c _ pn.1 s0 (Or.inl (by
        rw [h0]
        intro hh
        exact Value.noConfusion (Option.some.inj hh)))]
      exact h0
    have hrlt1 : r < s1.length := by
      rw [hs1def, length_foldl_arr]
      exact Nat.lt_trans hrc hlen0
    obtain ⟨d1, d2, d3⟩ := parentFold_ref_parent c _ s1 s0 hinv1 hnd hoe1
      pn hpn r (Nat.ne_of_lt hrc) hrlt1 h1
    refine ⟨d1, ?_, d2⟩
    intro g hg horig
    apply d3 g hg
    have hsr : sget s0 r = sget s r := by
      rw [hs0def]
      exact sget_append_lt _ hrc
    rw [hsr]
    exact horig
  exact ⟨conjB, conjA, conjC, conjD⟩

theorem C1_witness :
    (0 < exStore.length) ∧ closedDictB (sget exStore 0) exStore.length = true ∧
    alookup (sget (apply_schema_defaults specSchema exStore 0).1
      (apply_schema_defaults specSchema exStore 0).2) "annotations"
      = some (.vref 1) ∧
    alookup (sget (apply_schema_defaults specSchema exStore 0).1 1) "list"
      = some (.varr []) := by
  have happlied := C1_no_null_sequences specSchema exStore 0 (by decide) rfl
  have hD := happlied.2.2.2 ("annotations", ["list"]) (by decide) 1 rfl
  exact ⟨by decide, rfl, hD.1, hD.2.1 "list" (by decide) (Or.inl rfl)⟩

/-- C10: `apply_schema_defaults` removes no key — every key of the input
is present in the result — and every key that is neither a top-level
array field holding null nor an object-typed field with known nested
array sub-fields keeps exactly the input's value. -/
theorem C10_frame (schema : JSchema) (s : Store) (d : Nat)
    (hd : d < s.length) (hclosed : closedDictB (sget s d) s.length = true) :
    (∀ k, alookup (sget s d) k ≠ none →
      alookup (sget (apply_schema_defaults schema s d).1
        (apply_schema_defaults schema s d).2) k ≠ none) ∧
    (∀ k, (k ∈ get_array_fields schema → alookup (sget s d) k ≠ some .vnull) →
      k ∉ (get_nested_array_fields schema).map Prod.fst →
      alookup (sget (apply_schema_defaults schema s d).1
        (apply_schema_defaults schema s d).2) k = alookup (sget s d) k) := by
  rw [show apply_schema_defaults schema s d =
      ((get_nested_array_fields schema).foldl (parentStep s.length)
        ((get_array_fields schema).foldl (arrStep s.length) (s ++ [sget s d])),
       s.length) from rfl]
  dsimp only
  set c := s.length with hcdef
  set s0 : Store := s ++ [sget s d] with hs0def
  set s1 := (get_array_fields schema).foldl (arrStep c) s0 with hs1def
  have hs0c : sget s0 c = sget s d := sget_append_self s (sget s d)
  have hlen0 : c < s0.length := by
    rw [hs0def]
    simp only [List.length_append, List.length_singleton]
    omega
  have hinv0 : StoreInv c s0 := by
    refine ⟨hlen0, ?_⟩
    intro q r hq
    rw [hs0c] at hq
    have hr := closedDictB_lookup hclosed hq
    exact ⟨Nat.ne_of_lt hr, Nat.lt_trans hr hlen0⟩
  have hinv1 : StoreInv c s1 := storeInv_foldl_arr c _ s0 hinv0
  constructor
  · intro k hk
    have h0 : alookup (sget s0 c) k ≠ none := by
      rw [hs0c]
      exact hk
    exact parentFold_ne_none c _ s1 hinv1 (arrFold_ne_none c _ s0 h0)
  · intro k hnn hnp
    have h1 : alookup (sget s1 c) k = alookup (sget s0 c) k := by
      rw [hs1def]
      apply arrFold_slot
      by_cases hin : k ∈ get_array_fields schema
      · left
        rw [hs0c]
        exact hnn hin
      · exact Or.inr hin
    rw [parentFold_slot c _ k s1 hnp hinv1, h1, hs0c]

theorem C10_witness :
    (0 < exStore.length) ∧ closedDictB (sget exStore 0) exStore.length = true ∧
    ("tags" ∉ (get_nested_array_fields specSchema).map Prod.fst) ∧
    alookup (sget (apply_schema_defaults specSchema exStore 0).1
      (apply_schema_defaults specSchema exStore 0).2) "tags"
      = alookup (sget exStore 0) "tags" := by
  refine ⟨by decide, rfl, by decide, ?_⟩
  refine (C10_frame specSchema exStore 0 (by decide) rfl).2 "tags" ?_ (by decide)
  intro _ hh
  rw [show alookup (sget exStore 0) "tags" = none from rfl] at hh
  exact Option.noConfusion hh

/-- C7 (counterexample): `apply_schema_defaults` starts from a shallow
copy, so a nested correction is applied in place to a dictionary shared
with the input: on a heap whose input dictionary references the nested
object 1 holding a null `list`, the returned mapping is object 2, yet
object 1 — reachable only through the *input* — now holds `list = []`
instead of its original null.  Corrections therefore do not appear only
in the returned mapping. -/
theorem C7_counterexample :
    (apply_schema_defaults specSchema exStore 0).2 = 2 ∧
    alookup (sget (apply_schema_defaults specSchema exStore 0).1 1) "list"
      = some (.varr []) ∧
    alookup (sget exStore 1) "list" = some .vnull ∧
    (1 : Nat) ≠ 2 :=
  ⟨rfl, rfl, rfl, by decide⟩

/-- C7 (amended): `apply_schema_defaults` never overwrites a slot
holding a non-null value anywhere on the heap, and never writes a null;
the input's top-level dictionary object itself is unchanged (the loops
assign only into the shallow copy); but nested corrections are applied
in place to shared nested dictionaries and are therefore visible through
the input mapping as well. -/
theorem C7_no_mutation_of_corrected_values (schema : JSchema) (s : Store) (d : Nat)
    (hd : d < s.length) (hclosed : closedDictB (sget s d) s.length = true)
    (hnoself : noRefToB (sget s d) d = true) :
    sget (apply_schema_defaults schema s d).1 d = sget s d ∧
    Pres s (apply_schema_defaults schema s d).1 ∧
    NoNew (s ++ [sget s d]) (apply_schema_defaults schema s d).1 := by
  rw [show apply_schema_defaults schema s d =
      ((get_nested_array_fields schema).foldl (parentStep s.length)
        ((get_array_fields schema).foldl (arrStep s.length) (s ++ [sget s d])),
       s.length) from rfl]
  dsimp only
  set c := s.length with hcdef
  set s0 : Store := s ++ [sget s d] with hs0def
  set s1 := (get_array_fields schema).foldl (arrStep c) s0 with hs1def
  have hs0c : sget s0 c = sget s d := sget_append_self s (sget s d)
  have hs0d : sget s0 d = sget s d := by
    rw [hs0def]
    exact sget_append_lt _ hd
  have hlen0 : c < s0.length := by
    rw [hs0def]
    simp only [List.length_append, List.length_singleton]
    omega
  have hinv0 : StoreInv c s0 := by
    refine ⟨hlen0, ?_⟩
    intro q r hq
    rw [hs0c] at hq
    have hr := closedDictB_lookup hclosed hq
    exact ⟨Nat.ne_of_lt hr, Nat.lt_trans hr hlen0⟩
  have hinv1 : StoreInv c s1 := storeInv_foldl_arr c _ s0 hinv0
  have hdc : d ≠ c := Nat.ne_of_lt hd
  have havoid0 : AvoidsRef c d s0 := by
    intro q r hq
    rw [hs0c] at hq
    exact noRefToB_lookup hnoself hq
  have hdlt1 : d < s1.length := by
    rw [hs1def, length_foldl_arr]
    exact Nat.lt_trans hd hlen0
  obtain ⟨pres1, nonew1⟩ := presNoNew_foldl_arr c (get_array_fields schema) s0
  have hlen1 : c < s1.length := by
    rw [hs1def, length_foldl_arr]
    exact hlen0
  obtain ⟨pres2, nonew2⟩ :=
    presNoNew_foldl_parent c (get_nested_array_fields schema) s1 hlen1
  refine ⟨?_, ?_, ?_⟩
  · rw [sgetd_foldl_parent c d (get_nested_array_fields schema) s1 hdc hdlt1
      hinv1 (avoids_foldl_arr c d _ s0 havoid0)]
    rw [hs1def, sgetd_foldl_arr c d _ s0 hdc]
    exact hs0d
  · have presApp : Pres s s0 := by
      intro r g v hv hl
      by_cases hr : r < s.length
      · rw [hs0def, sget_append_lt _ hr]
        exact hl
      · rw [sget_ge (Nat.le_of_not_lt hr)] at hl
        exact absurd hl (by simp [alookup])
    exact pres_trans presApp (pres_trans pres1 pres2)
  · exact noNew_trans nonew1 nonew2

theorem C7_witness :
    (0 < exStore.length) ∧ closedDictB (sget exStore 0) exStore.length = true ∧
    noRefToB (sget exStore 0) 0 = true ∧
    sget (apply_schema_defaults specSchema exStore 0).1 0 = sget exStore 0 :=
  ⟨by decide, rfl, rfl,
    (C7_no_mutation_of_corrected_values specSchema exStore 0
      (by decide) rfl rfl).1⟩

/-! ## The five hardcoded corrections of `serialize_model` -/

theorem alookup_aremove_self {α : Type} (l : List (String × α)) (k : String) :
    alookup (aremove l k) k = none := by
  induction l with
  | nil => rfl
  | cons kv t ih =>
      obtain ⟨k0, v0⟩ := kv
      by_cases hk : k0 = k
      · simpa [aremove, hk] using ih
      · simpa [aremove, alookup, hk] using ih

theorem alookup_aremove_ne {α : Type} (l : List (String × α)) {k k2 : String}
    (h : k2 ≠ k) : alookup (aremove l k) k2 = alookup l k2 := by
  induction l with
  | nil => rfl
  | cons kv t ih =>
      obtain ⟨k0, v0⟩ := kv
      by_cases hk : k0 = k
      · subst hk
        have hne : ¬ k0 = k2 := fun hh => h hh.symm
        rw [show aremove ((k0, v0) :: t) k0 = aremove t k0 from by
          simp [aremove]]
        rw [ih, alookup, if_neg hne]
      · rw [show aremove ((k0, v0) :: t) k = (k0, v0) :: aremove t k from by
          simp [aremove, hk]]
        rw [alookup, alookup]
        by_cases hk2 : k0 = k2
        · rw [if_pos hk2, if_pos hk2]
        · rw [if_neg hk2, if_neg hk2, ih]

theorem timeStep_write (c : Nat) (s : Store) (hc : c < s.length)
    (hcond : alookup (sget s c) "time" = none ∨
      alookup (sget s c) "time" = some .vnull) :
    alookup (sget (timeStep c s) c) "time" = some (.vref s.length) ∧
    sget (timeStep c s) s.length = timeDefaultDict ∧
    (∀ k, k ≠ "time" →
      alookup (sget (timeStep c s) c) k = alookup (sget s c) k) ∧
    (∀ x, x ≠ c → x < s.length → sget (timeStep c s) x = sget s x) ∧
    (timeStep c s).length = s.length + 1 := by
  have hc2 : c < (s ++ [timeDefaultDict]).length := by
    simp only [List.length_append, List.length_singleton]
    omega
  have hbody :
      timeStep c s =
        sset (s ++ [timeDefaultDict]) c
          (ainsert (sget s c) "time" (.vref s.length)) := by
    unfold timeStep
    rcases hcond with hcond | hcond <;> rw [hcond]
  refine ⟨?_, ?_, ?_, ?_, ?_⟩
  · rw [hbody, sget_sset_self hc2, alookup_ainsert_self]
  · rw [hbody, sget_sset_ne _ (Nat.ne_of_lt hc) _, sget_append_self]
  · intro k hk
    rw [hbody, sget_sset_self hc2, alookup_ainsert_ne _ _ hk]
  · intro x hx hxlt
    rw [hbody, sget_sset_ne _ (fun hh => hx hh.symm) _, sget_append_lt _ hxlt]
  · rw [hbody, length_sset]
    simp

theorem timeStep_rename (c : Nat) (s : Store) {r : Nat} {v : Value}
    (hr : alookup (sget s c) "time" = some (.vref r))
    (hfrom2 : alookup (sget s r) "from_" = some v)
    (hfrom : alookup (sget s r) "from" = none) :
    alookup (sget (timeStep c s) r) "from" = some v ∧
    alookup (sget (timeStep c s) r) "from_" = none ∧
    (∀ x, x ≠ r → sget (timeStep c s) x = sget s x) ∧
    (timeStep c s).length = s.length := by
  have hrlt : r < s.length := by
    by_contra hge
    rw [sget_ge (Nat.le_of_not_lt hge)] at hfrom2
    exact absurd hfrom2 (by simp [alookup])
  have hbody :
      timeStep c s =
        sset s r (ainsert (aremove (sget s r) "from_") "from" v) := by
    unfold timeStep
    rw [hr]
    dsimp only
    rw [hfrom2, hfrom]
  refine ⟨?_, ?_, ?_, ?_⟩
  · rw [hbody, sget_sset_self hrlt, alookup_ainsert_self]
  · rw [hbody, sget_sset_self hrlt,
      alookup_ainsert_ne _ _ (by decide : ("from_" : String) ≠ "from"),
      alookup_aremove_self]
  · intro x hx
    rw [hbody, sget_sset_ne _ (fun hh => hx hh.symm) _]
  · rw [hbody, length_sset]

theorem timeStep_id (c : Nat) (s : Store) {w : Value}
    (hw : alookup (sget s c) "time" = some w) (hwn : w ≠ .vnull)
    (hwr : ∀ r, w ≠ .vref r) : timeStep c s = s := by
  unfold timeStep
  rw [hw]
  cases w with
  | vnull => exact absurd rfl hwn
  | vref r => exact absurd rfl (hwr r)
  | vbool b => rfl
  | vint n => rfl
  | vstr t => rfl
  | varr a => rfl

theorem timeStep_slot_ne (c : Nat) (s : Store) {k : String} (hk : k ≠ "time")
    (hinv : StoreInv c s) :
    alookup (sget (timeStep c s) c) k = alookup (sget s c) k := by
  have hc : c < s.length := hinv.1
  have hc2 : c < (s ++ [timeDefaultDict]).length := by
    simp only [List.length_append, List.length_singleton]
    omega
  unfold timeStep
  split
  · rw [sget_sset_self hc2, alookup_ainsert_ne _ _ hk]
  · rw [sget_sset_self hc2, alookup_ainsert_ne _ _ hk]
  · rename_i r hr
    split
    · have hrc : r ≠ c := (hinv.2 "time" r hr).1
      rw [sget_sset_ne _ (fun hh => hrc hh) _]
    · rfl
  · rfl

theorem timeStep_length_ge (c : Nat) (s : Store) :
    s.length ≤ (timeStep c s).length := by
  unfold timeStep
  split
  · rw [length_sset]
    simp
  · rw [length_sset]
    simp
  · split
    · rw [length_sset]
    · exact Nat.le_refl _
  · exact Nat.le_refl _

theorem storeInv_timeStep (c : Nat) (s : Store) (hinv : StoreInv c s) :
    StoreInv c (timeStep c s) := by
  obtain ⟨hc, href⟩ := hinv
  have hc2 : c < (s ++ [timeDefaultDict]).length := by
    simp only [List.length_append, List.length_singleton]
    omega
  unfold timeStep
  split
  · refine ⟨by rw [length_sset]; exact hc2, ?_⟩
    intro q r hq
    rw [length_sset]
    rw [sget_sset_self hc2] at hq
    simp only [List.length_append, List.length_singleton]
    rcases alookup_ainsert_cases hq with ⟨_, hw⟩ | ⟨_, hold⟩
    · have : r = s.length := Value.vref.inj hw
      subst this
      exact ⟨Nat.ne_of_gt hc, by omega⟩
    · obtain ⟨h1, h2⟩ := href q r hold
      exact ⟨h1, by omega⟩
  · refine ⟨by rw [length_sset]; exact hc2, ?_⟩
    intro q r hq
    rw [length_sset]
    rw [sget_sset_self hc2] at hq
    simp only [List.length_append, List.length_singleton]
    rcases alookup_ainsert_cases hq with ⟨_, hw⟩ | ⟨_, hold⟩
    · have : r = s.length := Value.vref.inj hw
      subst this
      exact ⟨Nat.ne_of_gt hc, by omega⟩
    · obtain ⟨h1, h2⟩ := href q r hold
      exact ⟨h1, by omega⟩
  · rename_i r2 hr2
    split
    · have hr2c : r2 ≠ c := (href "time" r2 hr2).1
      refine ⟨by rw [length_sset]; exact hc, ?_⟩
      intro q r hq
      rw [length_sset]
      rw [sget_sset_ne _ (fun hh => hr2c hh) _] at hq
      exact href q r hq
    · exact ⟨hc, href⟩
  · exact ⟨hc, href⟩

theorem timepickerStep_write (c : Nat) (s : Store) (hc : c < s.length)
    (hcond : alookup (sget s c) "timepicker" = none ∨
      alookup (sget s c) "timepicker" = some .vnull) :
    alookup (sget (timepickerStep c s) c) "timepicker" = some (.vref s.length) ∧
    sget (timepickerStep c s) s.length = [] ∧
    (∀ k, k ≠ "timepicker" →
      alookup (sget (timepickerStep c s) c) k = alookup (sget s c) k) ∧
    (∀ x, x ≠ c → x < s.length → sget (timepickerStep c s) x = sget s x) ∧
    (timepickerStep c s).length = s.length + 1 := by
  have hc2 : c < (s ++ [([] : Dict)]).length := by
    simp only [List.length_append, List.length_singleton]
    omega
  have hbody :
      timepickerStep c s =
        sset (s ++ [([] : Dict)]) c
          (ainsert (sget s c) "timepicker" (.vref s.length)) := by
    unfold timepickerStep
    rcases hcond with hcond | hcond <;> rw [hcond]
  refine ⟨?_, ?_, ?_, ?_, ?_⟩
  · rw [hbody, sget_sset_self hc2, alookup_ainsert_self]
  · rw [hbody, sget_sset_ne _ (Nat.ne_of_lt hc) _, sget_append_self]
  · intro k hk
    rw [hbody, sget_sset_self hc2, alookup_ainsert_ne _ _ hk]
  · intro x hx hxlt
    rw [hbody, sget_sset_ne _ (fun hh => hx hh.symm) _, sget_append_lt _ hxlt]
  · rw [hbody, length_sset]
    simp

theorem timepickerStep_slot_ne (c : Nat) (s : Store) {k : String}
    (hk : k ≠ "timepicker") (hc : c < s.length) :
    alookup (sget (timepickerStep c s) c) k = alookup (sget s c) k := by
  have hc2 : c < (s ++ [([] : Dict)]).length := by
    simp only [List.length_append, List.length_singleton]
    omega
  unfold timepickerStep
  split
  · rw [sget_sset_self hc2, alookup_ainsert_ne _ _ hk]
  · rw [sget_sset_self hc2, alookup_ainsert_ne _ _ hk]
  · rfl

theorem timepickerStep_sget_ne (c : Nat) (s : Store) {x : Nat}
    (hx : x ≠ c) (hxlt : x < s.length) :
    sget (timepickerStep c s) x = sget s x := by
  unfold timepickerStep
  split
  · rw [sget_sset_ne _ (fun hh => hx hh.symm) _, sget_append_lt _ hxlt]
  · rw [sget_sset_ne _ (fun hh => hx hh.symm) _, sget_append_lt _ hxlt]
  · rfl

theorem timepickerStep_length_ge (c : Nat) (s : Store) :
    s.length ≤ (timepickerStep c s).length := by
  unfold timepickerStep
  split
  · rw [length_sset]
    simp
  · rw [length_sset]
    simp
  · exact Nat.le_refl _

theorem storeInv_timepickerStep (c : Nat) (s : Store) (hinv : StoreInv c s) :
    StoreInv c (timepickerStep c s) := by
  obtain ⟨hc, href⟩ := hinv
  have hc2 : c < (s ++ [([] : Dict)]).length := by
    simp only [List.length_append, List.length_singleton]
    omega
  unfold timepickerStep
  split
  · refine ⟨by rw [length_sset]; exact hc2, ?_⟩
    intro q r hq
    rw [length_sset]
    rw [sget_sset_self hc2] at hq
    simp only [List.length_append, List.length_singleton]
    rcases alookup_ainsert_cases hq with ⟨_, hw⟩ | ⟨_, hold⟩
    · have : r = s.length := Value.vref.inj hw
      subst this
      exact ⟨Nat.ne_of_gt hc, by omega⟩
    · obtain ⟨h1, h2⟩ := href q r hold
      exact ⟨h1, by omega⟩
  · refine ⟨by rw [length_sset]; exact hc2, ?_⟩
    intro q r hq
    rw [length_sset]
    rw [sget_sset_self hc2] at hq
    simp only [List.length_append, List.length_singleton]
    rcases alookup_ainsert_cases hq with ⟨_, hw⟩ | ⟨_, hold⟩
    · have : r = s.length := Value.vref.inj hw
      subst this
      exact ⟨Nat.ne_of_gt hc, by omega⟩
    · obtain ⟨h1, h2⟩ := href q r hold
      exact ⟨h1, by omega⟩
  · exact ⟨hc, href⟩

theorem scalarDefaultStep_write (key : String) (dv : Value) (c : Nat) (s : Store)
    (hc : c < s.length)
    (hcond : alookup (sget s c) key = none ∨
      alookup (sget s c) key = some .vnull) :
    alookup (sget (scalarDefaultStep key dv c s) c) key = some dv := by
  have hbody : scalarDefaultStep key dv c s =
      sset s c (ainsert (sget s c) key dv) := by
    unfold scalarDefaultStep
    rcases hcond with hcond | hcond <;> rw [hcond]
  rw [hbody, sget_sset_self hc, alookup_ainsert_self]

theorem scalarDefaultStep_slot_ne (key : String) (dv : Value) (c : Nat) (s : Store)
    {k : String} (hk : k ≠ key) :
    alookup (sget (scalarDefaultStep key dv c s) c) k = alookup (sget s c) k := by
  unfold scalarDefaultStep
  split
  · by_cases hc : c < s.length
    · rw [sget_sset_self hc, alookup_ainsert_ne _ _ hk]
    · rw [sset_ge (Nat.le_of_not_lt hc)]
  · by_cases hc : c < s.length
    · rw [sget_sset_self hc, alookup_ainsert_ne _ _ hk]
    · rw [sset_ge (Nat.le_of_not_lt hc)]
  · rfl

theorem scalarDefaultStep_sget_ne (key : String) (dv : Value) (c : Nat) (s : Store)
    {x : Nat} (hx : x ≠ c) :
    sget (scalarDefaultStep key dv c s) x = sget s x := by
  unfold scalarDefaultStep
  split
  · exact sget_sset_ne _ (fun hh => hx hh.symm) _
  · exact sget_sset_ne _ (fun hh => hx hh.symm) _
  · rfl

theorem scalarDefaultStep_length (key : String) (dv : Value) (c : Nat) (s : Store) :
    (scalarDefaultStep key dv c s).length = s.length := by
  unfold scalarDefaultStep
  split
  · exact length_sset s c _
  · exact length_sset s c _
  · rfl

theorem storeInv_scalarDefaultStep (key : String) (dv : Value) (c : Nat) (s : Store)
    (hdv : ∀ r2, dv ≠ .vref r2) (hinv : StoreInv c s) :
    StoreInv c (scalarDefaultStep key dv c s) := by
  obtain ⟨hc, href⟩ := hinv
  unfold scalarDefaultStep
  split
  · refine ⟨by rw [length_sset]; exact hc, ?_⟩
    intro q r hq
    rw [length_sset]
    rw [sget_sset_self hc] at hq
    rcases alookup_ainsert_cases hq with ⟨_, hw⟩ | ⟨_, hold⟩
    · exact absurd hw.symm (hdv r)
    · exact href q r hold
  · refine ⟨by rw [length_sset]; exact hc, ?_⟩
    intro q r hq
    rw [length_sset]
    rw [sget_sset_self hc] at hq
    rcases alookup_ainsert_cases hq with ⟨_, hw⟩ | ⟨_, hold⟩
    · exact absurd hw.symm (hdv r)
    · exact href q r hold
  · exact ⟨hc, href⟩

theorem timeStep_ne_none_bwd (c : Nat) (s : Store) {k : String}
    (hinv : StoreInv c s)
    (h : alookup (sget (timeStep c s) c) k ≠ none) :
    alookup (sget s c) k ≠ none ∨ k = "time" := by
  by_cases hk : k = "time"
  · exact Or.inr hk
  · left
    rwa [timeStep_slot_ne c s hk hinv] at h

theorem timepickerStep_ne_none_bwd (c : Nat) (s : Store) {k : String}
    (hc : c < s.length)
    (h : alookup (sget (timepickerStep c s) c) k ≠ none) :
    alookup (sget s c) k ≠ none ∨ k = "timepicker" := by
  by_cases hk : k = "timepicker"
  · exact Or.inr hk
  · left
    rwa [timepickerStep_slot_ne c s hk hc] at h

theorem scalarDefaultStep_ne_none_bwd (key : String) (dv : Value) (c : Nat)
    (s : Store) {k : String}
    (h : alookup (sget (scalarDefaultStep key dv c s) c) k ≠ none) :
    alookup (sget s c) k ≠ none ∨ k = key := by
  by_cases hk : k = key
  · exact Or.inr hk
  · left
    rwa [scalarDefaultStep_slot_ne key dv c s hk] at h

/-- The result-dictionary invariant holds for the output of
`apply_schema_defaults` on any well-formed input. -/
theorem storeInv_apply (schema : JSchema) (s : Store) (d : Nat)
    (hd : d < s.length) (hclosed : closedDictB (sget s d) s.length = true) :
    StoreInv (apply_schema_defaults schema s d).2
      (apply_schema_defaults schema s d).1 := by
  rw [show apply_schema_defaults schema s d =
      ((get_nested_array_fields schema).foldl (parentStep s.length)
        ((get_array_fields schema).foldl (arrStep s.length) (s ++ [sget s d])),
       s.length) from rfl]
  dsimp only
  have hs0c : sget (s ++ [sget s d]) s.length = sget s d :=
    sget_append_self s (sget s d)
  have hlen0 : s.length < (s ++ [sget s d]).length := by
    simp only [List.length_append, List.length_singleton]
    omega
  have hinv0 : StoreInv s.length (s ++ [sget s d]) := by
    refine ⟨hlen0, ?_⟩
    intro q r hq
    rw [hs0c] at hq
    have hr := closedDictB_lookup hclosed hq
    exact ⟨Nat.ne_of_lt hr, Nat.lt_trans hr hlen0⟩
  exact storeInv_foldl_parent _ _ _ (storeInv_foldl_arr _ _ _ hinv0)

/-- Keys present in the normalized mapping were present in the input. -/
theorem apply_ne_none_bwd (schema : JSchema) (s : Store) (d : Nat)
    (hd : d < s.length) (hclosed : closedDictB (sget s d) s.length = true)
    {k : String}
    (h : alookup (sget (apply_schema_defaults schema s d).1
      (apply_schema_defaults schema s d).2) k ≠ none) :
    alookup (sget s d) k ≠ none := by
  rw [show apply_schema_defaults schema s d =
      ((get_nested_array_fields schema).foldl (parentStep s.length)
        ((get_array_fields schema).foldl (arrStep s.length) (s ++ [sget s d])),
       s.length) from rfl] at h
  dsimp only at h
  have hs0c : sget (s ++ [sget s d]) s.length = sget s d :=
    sget_append_self s (sget s d)
  have hlen0 : s.length < (s ++ [sget s d]).length := by
    simp only [List.length_append, List.length_singleton]
    omega
  have hinv0 : StoreInv s.length (s ++ [sget s d]) := by
    refine ⟨hlen0, ?_⟩
    intro q r hq
    rw [hs0c] at hq
    have hr := closedDictB_lookup hclosed hq
    exact ⟨Nat.ne_of_lt hr, Nat.lt_trans hr hlen0⟩
  have h1 := parentFold_ne_none_bwd s.length _ _
    (storeInv_foldl_arr _ _ _ hinv0) h
  have h0 := arrFold_ne_none_bwd s.length _ _ h1
  rwa [hs0c] at h0

/-- `serialize_model` laid out as its four correction steps after the
normalizer. -/
theorem serialize_model_eq (s : Store) (d : Nat) :
    serialize_model s d =
      (scalarDefaultStep "weekStart" (.vstr "")
        (apply_schema_defaults specSchema s d).2
        (scalarDefaultStep "version" (.vint 1)
          (apply_schema_defaults specSchema s d).2
          (timepickerStep (apply_schema_defaults specSchema s d).2
            (timeStep (apply_schema_defaults specSchema s d).2
              (apply_schema_defaults specSchema s d).1))),
       (apply_schema_defaults specSchema s d).2) := rfl

/-- C4: a Spec holding only its `schemaVersion` serializes with
`time = {from: "now-6h", to: "now"}`, `timepicker = {}`, `version = 1`
and `weekStart = ""`; and in general the five fixed corrections are
applied after the null-sequence normalization whenever the field is
absent or null there — including the rename of a `from_` key to `from`
inside a present `time` dictionary. -/
theorem C4_hardcoded_corrections :
    (∃ n,
      alookup (sget (DashboardObject.serialize
          ⟨[], ([specDumpMinimal], 0), []⟩).1
        (DashboardObject.serialize ⟨[], ([specDumpMinimal], 0), []⟩).2) "time"
        = some (.vref n) ∧
      sget (DashboardObject.serialize ⟨[], ([specDumpMinimal], 0), []⟩).1 n
        = timeDefaultDict) ∧
    (∃ m,
      alookup (sget (DashboardObject.serialize
          ⟨[], ([specDumpMinimal], 0), []⟩).1
        (DashboardObject.serialize
          ⟨[], ([specDumpMinimal], 0), []⟩).2) "timepicker"
        = some (.vref m) ∧
      sget (DashboardObject.serialize ⟨[], ([specDumpMinimal], 0), []⟩).1 m
        = []) ∧
    alookup (sget (DashboardObject.serialize ⟨[], ([specDumpMinimal], 0), []⟩).1
      (DashboardObject.serialize ⟨[], ([specDumpMinimal], 0), []⟩).2) "version"
      = some (.vint 1) ∧
    alookup (sget (DashboardObject.serialize ⟨[], ([specDumpMinimal], 0), []⟩).1
      (DashboardObject.serialize ⟨[], ([specDumpMinimal], 0), []⟩).2) "weekStart"
      = some (.vstr "") ∧
    (∀ s : Store, ∀ d : Nat, d < s.length →
      closedDictB (sget s d) s.length = true →
      ((alookup (sget (apply_schema_defaults specSchema s d).1
          (apply_schema_defaults specSchema s d).2) "time" = none ∨
        alookup (sget (apply_schema_defaults specSchema s d).1
          (apply_schema_defaults specSchema s d).2) "time" = some .vnull) →
        ∃ n, alookup (sget (serialize_model s d).1 (serialize_model s d).2)
            "time" = some (.vref n) ∧
          sget (serialize_model s d).1 n = timeDefaultDict) ∧
      (∀ r v, alookup (sget (apply_schema_defaults specSchema s d).1
          (apply_schema_defaults specSchema s d).2) "time" = some (.vref r) →
        alookup (sget (apply_schema_defaults specSchema s d).1 r) "from_"
          = some v →
        alookup (sget (apply_schema_defaults specSchema s d).1 r) "from"
          = none →
        alookup (sget (serialize_model s d).1 r) "from" = some v ∧
        alookup (sget (serialize_model s d).1 r) "from_" = none) ∧
      ((alookup (sget (apply_schema_defaults specSchema s d).1
          (apply_schema_defaults specSchema s d).2) "timepicker" = none ∨
        alookup (sget (apply_schema_defaults specSchema s d).1
          (apply_schema_defaults specSchema s d).2) "timepicker"
          = some .vnull) →
        ∃ m, alookup (sget (serialize_model s d).1 (serialize_model s d).2)
            "timepicker" = some (.vref m) ∧
          sget (serialize_model s d).1 m = []) ∧
      ((alookup (sget (apply_schema_defaults specSchema s d).1
          (apply_schema_defaults specSchema s d).2) "version" = none ∨
        alookup (sget (apply_schema_defaults specSchema s d).1
          (apply_schema_defaults specSchema s d).2) "version" = some .vnull) →
        alookup (sget (serialize_model s d).1 (serialize_model s d).2)
          "version" = some (.vint 1)) ∧
      ((alookup (sget (apply_schema_defaults specSchema s d).1
          (apply_schema_defaults specSchema s d).2) "weekStart" = none ∨
        alookup (sget (apply_schema_defaults specSchema s d).1
          (apply_schema_defaults specSchema s d).2) "weekStart" = some .vnull) →
        alookup (sget (serialize_model s d).1 (serialize_model s d).2)
          "weekStart" = some (.vstr ""))) := by
  refine ⟨⟨4, rfl, rfl⟩, ⟨5, rfl, rfl⟩, rfl, rfl, ?_⟩
  intro s d hd hclosed
  rw [serialize_model_eq]
  dsimp only
  set c := (apply_schema_defaults specSchema s d).2 with hcdef
  set sN := (apply_schema_defaults specSchema s d).1 with hsNdef
  have hinvN : StoreInv c sN := storeInv_apply specSchema s d hd hclosed
  have hcN : c < sN.length := hinvN.1
  set s2 := timeStep c sN with hs2def
  set s3 := timepickerStep c s2 with hs3def
  set s4 := scalarDefaultStep "version" (.vint 1) c s3 with hs4def
  have hc2 : c < s2.length := Nat.lt_of_lt_of_le hcN (timeStep_length_ge c sN)
  have hc3 : c < s3.length :=
    Nat.lt_of_lt_of_le hc2 (timepickerStep_length_ge c s2)
  have hc4 : c < s4.length := by
    rw [hs4def, scalarDefaultStep_length]
    exact hc3
  refine ⟨?_, ?_, ?_, ?_, ?_⟩
  · -- time default
    intro hcond
    obtain ⟨h1slot, h1dict, _, _, h1len⟩ := timeStep_write c sN hcN hcond
    refine ⟨sN.length, ?_, ?_⟩
    · rw [scalarDefaultStep_slot_ne _ _ _ _ (by decide : ("time" : String) ≠ "weekStart"),
        scalarDefaultStep_slot_ne _ _ _ _ (by decide : ("time" : String) ≠ "version"),
        timepickerStep_slot_ne c s2 (by decide : ("time" : String) ≠ "timepicker") hc2]
      exact h1slot
    · have hnc : sN.length ≠ c := Nat.ne_of_gt hcN
      have hnlt : sN.length < s2.length := by
        rw [hs2def, h1len]
        omega
      rw [scalarDefaultStep_sget_ne _ _ _ _ hnc,
        scalarDefaultStep_sget_ne _ _ _ _ hnc,
        timepickerStep_sget_ne c s2 hnc hnlt]
      exact h1dict
  · -- from_ → from rename
    intro r v hr hfrom2 hfrom
    obtain ⟨h2from, h2from2, _, h2len⟩ := timeStep_rename c sN hr hfrom2 hfrom
    have hrc : r ≠ c := (hinvN.2 "time" r hr).1
    have hrlt : r < sN.length := (hinvN.2 "time" r hr).2
    have hrlt2 : r < s2.length := by
      rw [hs2def, h2len]
      exact hrlt
    have hdict : sget s4 r = sget s2 r := by
      rw [hs4def, scalarDefaultStep_sget_ne _ _ _ _ hrc, hs3def,
        timepickerStep_sget_ne c s2 hrc hrlt2]
    constructor
    · rw [scalarDefaultStep_sget_ne _ _ _ _ hrc, hdict]
      exact h2from
    · rw [scalarDefaultStep_sget_ne _ _ _ _ hrc, hdict]
      exact h2from2
  · -- timepicker default
    intro hcond
    have hcond2 : alookup (sget s2 c) "timepicker" = none ∨
        alookup (sget s2 c) "timepicker" = some .vnull := by
      rw [hs2def,
        timeStep_slot_ne c sN (by decide : ("timepicker" : String) ≠ "time") hinvN]
      exact hcond
    obtain ⟨h3slot, h3dict, _, _, h3len⟩ := timepickerStep_write c s2 hc2 hcond2
    refine ⟨s2.length, ?_, ?_⟩
    · rw [scalarDefaultStep_slot_ne _ _ _ _
          (by decide : ("timepicker" : String) ≠ "weekStart"),
        scalarDefaultStep_slot_ne _ _ _ _
          (by decide : ("timepicker" : String) ≠ "version")]
      exact h3slot
    · have hnc : s2.length ≠ c := Nat.ne_of_gt hc2
      rw [scalarDefaultStep_sget_ne _ _ _ _ hnc,
        scalarDefaultStep_sget_ne _ _ _ _ hnc]
      exact h3dict
  · -- version default
    intro hcond
    have hcond3 : alookup (sget s3 c) "version" = none ∨
        alookup (sget s3 c) "version" = some .vnull := by
      rw [hs3def,
        timepickerStep_slot_ne c s2 (by decide : ("version" : String) ≠ "timepicker") hc2,
        hs2def,
        timeStep_slot_ne c sN (by decide : ("version" : String) ≠ "time") hinvN]
      exact hcond
    rw [scalarDefaultStep_slot_ne _ _ _ _
        (by decide : ("version" : String) ≠ "weekStart")]
    exact scalarDefaultStep_write "version" (.vint 1) c s3 hc3 hcond3
  · -- weekStart default
    intro hcond
    have hcond4 : alookup (sget s4 c) "weekStart" = none ∨
        alookup (sget s4 c) "weekStart" = some .vnull := by
      rw [hs4def,
        scalarDefaultStep_slot_ne _ _ _ _
          (by decide : ("weekStart" : String) ≠ "version"),
        hs3def,
        timepickerStep_slot_ne c s2 (by decide : ("weekStart" : String) ≠ "timepicker") hc2,
        hs2def,
        timeStep_slot_ne c sN (by decide : ("weekStart" : String) ≠ "time") hinvN]
      exact hcond
    exact scalarDefaultStep_write "weekStart" (.vstr "") c s4 hc4 hcond4

theorem C4_witness :
    (0 < ([specDumpMinimal] : Store).length) ∧
    closedDictB (sget [specDumpMinimal] 0) ([specDumpMinimal] : Store).length
      = true ∧
    alookup (sget (serialize_model [specDumpMinimal] 0).1
      (serialize_model [specDumpMinimal] 0).2) "version" = some (.vint 1) := by
  refine ⟨by decide, rfl, ?_⟩
  have hgen := C4_hardcoded_corrections.2.2.2.2 [specDumpMinimal] 0 (by decide) rfl
  exact hgen.2.2.2.1 (Or.inr rfl)

/-- C5: the serialized form of a `DashboardObject` is a function of its
Spec alone — objects differing only in Metadata and Status serialize
identically — and every key of the serialized mapping either comes from
the Spec dump itself or is one of the four keys the hardcoded
corrections may introduce; no Metadata- or Status-derived key can
appear. -/
theorem C5_metadata_status_never_serialized :
    (∀ o o2 : DashboardObject, o.spec = o2.spec →
      DashboardObject.serialize o = DashboardObject.serialize o2) ∧
    (∀ s : Store, ∀ d : Nat, d < s.length →
      closedDictB (sget s d) s.length = true →
      ∀ k, alookup (sget (serialize_model s d).1 (serialize_model s d).2) k
          ≠ none →
        alookup (sget s d) k ≠ none ∨
        k = "time" ∨ k = "timepicker" ∨ k = "version" ∨ k = "weekStart") := by
  constructor
  · intro o o2 hspec
    unfold DashboardObject.serialize
    rw [hspec]
  · intro s d hd hclosed k hk
    rw [serialize_model_eq] at hk
    dsimp only at hk
    have hinvN : StoreInv (apply_schema_defaults specSchema s d).2
        (apply_schema_defaults specSchema s d).1 :=
      storeInv_apply specSchema s d hd hclosed
    have hcN : (apply_schema_defaults specSchema s d).2
        < (apply_schema_defaults specSchema s d).1.length := hinvN.1
    have hc2 : (apply_schema_defaults specSchema s d).2
        < (timeStep (apply_schema_defaults specSchema s d).2
            (apply_schema_defaults specSchema s d).1).length :=
      Nat.lt_of_lt_of_le hcN (timeStep_length_ge _ _)
    rcases scalarDefaultStep_ne_none_bwd _ _ _ _ hk with hk | hk
    · rcases scalarDefaultStep_ne_none_bwd _ _ _ _ hk with hk | hk
      · rcases timepickerStep_ne_none_bwd _ _ hc2 hk with hk | hk
        · rcases timeStep_ne_none_bwd _ _ hinvN hk with hk | hk
          · exact Or.inl (apply_ne_none_bwd specSchema s d hd hclosed hk)
          · exact Or.inr (Or.inl hk)
        · exact Or.inr (Or.inr (Or.inl hk))
      · exact Or.inr (Or.inr (Or.inr (Or.inl hk)))
    · exact Or.inr (Or.inr (Or.inr (Or.inr hk)))

theorem C5_witness :
    (0 < ([specDumpMinimal] : Store).length) ∧
    closedDictB (sget [specDumpMinimal] 0) ([specDumpMinimal] : Store).length
      = true ∧
    DashboardObject.serialize
        ⟨[("uid", .vstr "meta-uid")], ([specDumpMinimal], 0), []⟩ =
      DashboardObject.serialize
        ⟨[], ([specDumpMinimal], 0), [("operatorStates", .vnull)]⟩ ∧
    (alookup (sget [specDumpMinimal] 0) "title" ≠ none ∨
      "title" = "time" ∨ "title" = "timepicker" ∨ "title" = "version" ∨
      "title" = "weekStart") := by
  refine ⟨by decide, rfl,
    C5_metadata_status_never_serialized.1 _ _ rfl, ?_⟩
  refine C5_metadata_status_never_serialized.2 [specDumpMinimal] 0
    (by decide) rfl "title" ?_
  intro hh
  rw [show alookup (sget (serialize_model [specDumpMinimal] 0).1
    (serialize_model [specDumpMinimal] 0).2) "title" = some Value.vnull
    from rfl] at hh
  exact Option.noConfusion hh

end Grafanarama
